import Mathlib

/-!
# network-monitor: capture pipeline, aggregate store and historical store

A shallow embedding of `backend/internal/models/models.go`,
`backend/internal/storage/memory.go`, `backend/internal/storage/file.go`,
`backend/internal/capture/capture.go` and `backend/internal/capture/manager.go`,
followed by the properties established about them.

Conventions of the embedding

* `time.Time` is an instant, an `Int` count of nanoseconds since the Unix epoch;
  `time.Duration` is an `Int` count of nanoseconds. `a.After(b)` is `b < a`,
  `a.Before(b)` is `a < b`, `a.Add(d)` is `a + d`.
* `uint64` and `uint16` fields are `Nat`; arithmetic that can leave the range
  is reduced `% 2^64` where the Go code computes it.
* A Go `map[string]*T` is an association list. Go iterates a map in an
  unspecified order; the order of the list stands for whichever order the
  runtime picks, and the properties below only speak of membership and counts.
  The entry of a key holds the value the stored pointer reaches. Where it
  matters that the store keeps the pointer it was given, as for two successive
  calls of `UpdateConnection`, the objects are kept in a list and a pointer is
  an index (`UpdateConnectionRef`).
* Local time is `loc` nanoseconds ahead of UTC. For a single instant `loc` is
  the offset in force at that instant; for the loop of `GetHistoricalData`,
  which converts several instants, the offset is also taken as a function of
  the instant (`GetHistoricalDataIn`).
* The directory of the historical store is a function from file names to file
  contents. A file content is described by what `json.Unmarshal` makes of it,
  and `json.Marshal` followed by `json.Unmarshal` gives back the list of
  snapshots. Errors of `json.Marshal` and `ioutil.WriteFile` are inputs of the
  call that can report them.
* A function that can panic at run time returns an `Option`, and `none` is the
  panic. `len(s)` of a Go string is its length in bytes.
* The capture session and the store hold pointers to the same `Connection`
  objects. The session is modelled with the objects in a list and their
  indices as pointers; `CaptureState.store` is the store its readers see.
* libpcap is an input of `NewPacketCapture`. The sessions of the manager are
  named by numbers, the manager records what its calls did to them, and the
  end of the goroutine of a session is an event of its own.
-/

namespace NetworkMonitor

/-! ## models.go -/

def Second : Int := 1000000000

def Hour : Int := 3600 * Second

/-- The number of values of a `uint64`. -/
def uint64Size : Nat := 18446744073709551616

structure Connection where
  SrcIP : String
  SrcPort : Nat
  DstIP : String
  DstPort : Nat
  Protocol : String
  Bytes : Nat
  BytesPerSec : Nat
  Packets : Nat
  StartTime : Int
  LastSeen : Int
deriving DecidableEq, Repr

structure InterfaceStats where
  Interface : String
  InBytes : Nat
  OutBytes : Nat
  InBytesPerSec : Nat
  OutBytesPerSec : Nat
  InPackets : Nat
  OutPackets : Nat
  InPacketsPerSec : Nat
  OutPacketsPerSec : Nat
deriving DecidableEq, Repr

structure TrafficSnapshot where
  Timestamp : Int
  Interface : Option InterfaceStats
  Connections : List Connection
deriving DecidableEq, Repr

structure HistoricalData where
  Timestamp : Int
  InBytes : Nat
  OutBytes : Nat
  InPackets : Nat
  OutPackets : Nat
deriving DecidableEq, Repr

structure Filter where
  IP : String
  Port : Nat
  Protocol : String
deriving DecidableEq, Repr

/-! ## Go maps -/

/-- The lookup `m[k]` of a Go map: the value and `ok`, as an option. -/
def mapGet {α : Type} : List (String × α) → String → Option α
  | [], _ => none
  | (k', v) :: rest, k => if k' = k then some v else mapGet rest k

/-- The assignment `m[k] = v` of a Go map: the entry of `k` is replaced where it
stands, or a new entry is added. -/
def mapSet {α : Type} : List (String × α) → String → α → List (String × α)
  | [], k, v => [(k, v)]
  | (k', v') :: rest, k, v =>
    if k' = k then (k, v) :: rest else (k', v') :: mapSet rest k v

/-! ## memory.go -/

structure MemoryStorage where
  connections : List (String × Connection)
  interfaces : List (String × InterfaceStats)
  snapshots : List TrafficSnapshot
  maxSnapshots : Nat
deriving DecidableEq, Repr

def NewMemoryStorage : MemoryStorage :=
  { connections := [], interfaces := [], snapshots := [], maxSnapshots := 3600 }

/-- The Go conversion `string(x)` of an integer: the UTF-8 text of the code
point `x`, and of U+FFFD when `x` is not a valid code point (a surrogate
half, or above U+10FFFF). -/
def runeString (x : Nat) : String :=
  if (0xD800 ≤ x ∧ x ≤ 0xDFFF) ∨ 0x10FFFF < x then
    String.singleton (Char.ofNat 0xFFFD)
  else
    String.singleton (Char.ofNat x)

def connectionKey (conn : Connection) : String :=
  conn.SrcIP ++ ":" ++ runeString conn.SrcPort ++ "-" ++
    conn.DstIP ++ ":" ++ runeString conn.DstPort ++ "-" ++ conn.Protocol

def UpdateConnection (m : MemoryStorage) (conn : Connection) : MemoryStorage :=
  let key := connectionKey conn
  match mapGet m.connections key with
  | some existing =>
    let existing1 :=
      { existing with BytesPerSec := (existing.BytesPerSec + conn.BytesPerSec) % uint64Size / 2 }
    let existing2 := { existing1 with Bytes := conn.Bytes }
    let existing3 := { existing2 with Packets := conn.Packets }
    let existing4 := { existing3 with LastSeen := conn.LastSeen }
    { m with connections := mapSet m.connections key existing4 }
  | none => { m with connections := mapSet m.connections key conn }

def UpdateInterface (m : MemoryStorage) (stats : InterfaceStats) : MemoryStorage :=
  { m with interfaces := mapSet m.interfaces stats.Interface stats }

/-- The first loop of `GetSnapshot`: a copy of the first interface entry the
iteration meets, `nil` when the table is empty. -/
def copyInterface : List (String × InterfaceStats) → Option InterfaceStats
  | [] => none
  | (_, iface) :: _ =>
    some
      { Interface := iface.Interface
        InBytes := iface.InBytes
        OutBytes := iface.OutBytes
        InBytesPerSec := iface.InBytesPerSec
        OutBytesPerSec := iface.OutBytesPerSec
        InPackets := iface.InPackets
        OutPackets := iface.OutPackets
        InPacketsPerSec := iface.InPacketsPerSec
        OutPacketsPerSec := iface.OutPacketsPerSec }

/-- The second loop of `GetSnapshot`: the copies of the connections seen after
`cutoff`. -/
def activeConnections (cutoff : Int) : List (String × Connection) → List Connection
  | [] => []
  | (_, conn) :: rest =>
    if cutoff < conn.LastSeen then conn :: activeConnections cutoff rest
    else activeConnections cutoff rest

/-- `GetSnapshot`; `now0` and `now1` are the two readings of `time.Now()`, for
the timestamp and for the cutoff. -/
def GetSnapshot (m : MemoryStorage) (now0 now1 : Int) : TrafficSnapshot :=
  { Timestamp := now0
    Interface := copyInterface m.interfaces
    Connections := activeConnections (now1 + (-5) * Second) m.connections }

/-- The loop of `GetFilteredConnections`. -/
def filterLoop (filter : Filter) (cutoff : Int) : List (String × Connection) → List Connection
  | [] => []
  | (_, conn) :: rest =>
    if conn.LastSeen < cutoff then filterLoop filter cutoff rest
    else if filter.IP ≠ "" ∧ conn.SrcIP ≠ filter.IP ∧ conn.DstIP ≠ filter.IP then
      filterLoop filter cutoff rest
    else if filter.Port ≠ 0 ∧ conn.SrcPort ≠ filter.Port ∧ conn.DstPort ≠ filter.Port then
      filterLoop filter cutoff rest
    else if filter.Protocol ≠ "" ∧ conn.Protocol ≠ filter.Protocol then
      filterLoop filter cutoff rest
    else conn :: filterLoop filter cutoff rest

def GetFilteredConnections (m : MemoryStorage) (filter : Filter) (now : Int) : List Connection :=
  filterLoop filter (now + (-5) * Second) m.connections

def ClearConnections (m : MemoryStorage) : MemoryStorage :=
  { m with connections := [], interfaces := [] }

/-- The state a store built by `NewMemoryStorage` and driven through its
methods is in: no key occurs twice, and every entry sits under the key of its
own connection. -/
def MemoryStorage.WF (m : MemoryStorage) : Prop :=
  (m.connections.map Prod.fst).Nodup ∧
    ∀ p ∈ m.connections, p.1 = connectionKey p.2

/-! ## file.go -/

/-- The text of `x` in decimal, padded with zeros to `width` digits, with a
leading minus sign for a negative number (the year, month, day and hour
fields of `Time.Format`). -/
def appendInt (x : Int) (width : Nat) : String :=
  let ds := Nat.toDigits 10 x.natAbs
  let padded := List.replicate (width - ds.length) '0' ++ ds
  if x < 0 then String.mk ('-' :: padded) else String.mk padded

/-- The year of the civil date of a day count since 1970-01-01, with the month
and the day of the month (proleptic Gregorian calendar). -/
def civilFromDays (days : Int) : Int × Int × Int :=
  let z := days + 719468
  let era := z / 146097
  let doe := z - era * 146097
  let yoe := (doe - doe / 1460 + doe / 36524 - doe / 146096) / 365
  let doy := doe - (365 * yoe + yoe / 4 - yoe / 100)
  let mp := (5 * doy + 2) / 153
  let d := doy - (153 * mp + 2) / 5 + 1
  let m := if mp < 10 then mp + 3 else mp - 9
  let y := yoe + era * 400
  (if m ≤ 2 then y + 1 else y, m, d)

/-- The layout `2006-01-02_15` of `Time.Format`, as a function of the count of
whole hours of local time since 1970-01-01 00:00, which fixes all of its
fields. -/
def formatHour (hours : Int) : String :=
  let ymd := civilFromDays (hours / 24)
  appendInt ymd.1 4 ++ "-" ++ appendInt ymd.2.1 2 ++ "-" ++ appendInt ymd.2.2 2 ++ "_" ++
    appendInt (hours % 24) 2

/-- The bucket file of the instant `t`:
`fmt.Sprintf("traffic_%s.json", t.Local().Format("2006-01-02_15"))`, where
local time is `loc` nanoseconds ahead of UTC. -/
def fileName (loc : Int) (t : Int) : String :=
  "traffic_" ++ formatHour ((t + loc) / Hour) ++ ".json"

/-- The call `t.Truncate(d)` for a positive `d` that divides a day: `t` rounded
down to a multiple of `d`. -/
def Truncate (t : Int) (d : Int) : Int := t - t % d

/-- The content of a bucket file, by what `json.Unmarshal` into a
`[]TrafficSnapshot` does with it.

* `array l`: the text of a JSON array of snapshot objects, which decodes to `l`
  without an error. This is what `json.Marshal` writes.
* `malformed decoded`: a text on which `json.Unmarshal` reports an error.
  `decoded` is what the call leaves in the slice: nothing for a text that is
  not JSON at all (the syntax is checked before anything is stored), and the
  elements stored so far for well-formed JSON of the wrong shape, since the
  decoder then "completes the unmarshaling as best it can" and reports the
  first mismatch afterwards. -/
inductive FileData where
  | array (snapshots : List TrafficSnapshot)
  | malformed (decoded : List TrafficSnapshot)
deriving DecidableEq, Repr

/-- The call `json.Unmarshal(data, &snapshots)` on a nil slice: the slice
afterwards, and whether the error is nil. -/
def jsonUnmarshal : FileData → List TrafficSnapshot × Bool
  | .array snapshots => (snapshots, true)
  | .malformed decoded => (decoded, false)

/-- The text `json.Marshal(snapshots)` produces when it succeeds. -/
def jsonMarshal (snapshots : List TrafficSnapshot) : FileData := .array snapshots

/-- The files of the directory `basePath`, by name; `none` is a file that
`ioutil.ReadFile` cannot read (it does not exist). -/
abbrev Dir := String → Option FileData

/-- `SaveSnapshot`. The directory is passed in and the directory after a
successful call is returned. `marshalErr` and `writeErr` say whether
`json.Marshal` and `ioutil.WriteFile` report an error in this call. -/
def SaveSnapshot (loc : Int) (dir : Dir) (snapshot : TrafficSnapshot)
    (marshalErr writeErr : Bool) : Except String Dir :=
  let name := fileName loc snapshot.Timestamp
  let snapshots : List TrafficSnapshot :=
    match dir name with
    | some data => (jsonUnmarshal data).1
    | none => []
  let snapshots := snapshots ++ [snapshot]
  if marshalErr then .error "json: marshal failed"
  else if writeErr then .error "write failed"
  else .ok (fun n => if n = name then some (jsonMarshal snapshots) else dir n)

/-- The inner loop of `GetHistoricalData`: the data points of the snapshots of
one bucket that lie in the range and have an interface. -/
def snapshotPoints (start end_ : Int) : List TrafficSnapshot → List HistoricalData
  | [] => []
  | snapshot :: rest =>
    if snapshot.Timestamp < start ∨ end_ < snapshot.Timestamp then
      snapshotPoints start end_ rest
    else
      match snapshot.Interface with
      | some iface =>
        { Timestamp := snapshot.Timestamp
          InBytes := iface.InBytesPerSec
          OutBytes := iface.OutBytesPerSec
          InPackets := iface.InPacketsPerSec
          OutPackets := iface.OutPacketsPerSec } :: snapshotPoints start end_ rest
      | none => snapshotPoints start end_ rest

/-- The values the loop variable of
`for t := startHour; !t.After(endHour); t = t.Add(time.Hour)` takes, at most
`fuel` of them. -/
def loopTimes : Nat → Int → Int → List Int
  | 0, _, _ => []
  | fuel + 1, t, endHour =>
    if endHour < t then [] else t :: loopTimes fuel (t + Hour) endHour

/-- The number of iterations of the loop of `GetHistoricalData`. -/
def loopFuel (startHour endHour : Int) : Nat :=
  ((endHour - startHour) / Hour + 1).toNat

/-- One iteration of the outer loop of `GetHistoricalData`: the data points the
bucket of `t` contributes. -/
def bucketPoints (loc : Int) (dir : Dir) (start end_ : Int) (t : Int) : List HistoricalData :=
  match dir (fileName loc t) with
  | none => []
  | some data =>
    match jsonUnmarshal data with
    | (_, false) => []
    | (snapshots, true) => snapshotPoints start end_ snapshots

/-- The outer loop of `GetHistoricalData` over the values of its variable. -/
def readBuckets (loc : Int) (dir : Dir) (start end_ : Int) : List Int → List HistoricalData
  | [] => []
  | t :: ts => bucketPoints loc dir start end_ t ++ readBuckets loc dir start end_ ts

/-- The instants whose buckets `GetHistoricalData(start, end)` reads. -/
def examinedTimes (start end_ : Int) : List Int :=
  let startHour := Truncate start Hour
  let endHour := Truncate (end_ + Hour) Hour
  loopTimes (loopFuel startHour endHour) startHour endHour

/-- The bucket files `GetHistoricalData(start, end)` reads, in order. -/
def examinedFiles (loc : Int) (start end_ : Int) : List String :=
  (examinedTimes start end_).map (fileName loc)

def GetHistoricalData (loc : Int) (dir : Dir) (start end_ : Int) :
    Except String (List HistoricalData) :=
  .ok (readBuckets loc dir start end_ (examinedTimes start end_))

/-- The outer loop of `GetHistoricalData` when the offset of local time from
UTC depends on the instant, as it does across a change to or from daylight
saving time: each iteration takes `t.Local()` with the offset `zone t` in
force at `t`. -/
def readBucketsIn (zone : Int → Int) (dir : Dir) (start end_ : Int) :
    List Int → List HistoricalData
  | [] => []
  | t :: ts => bucketPoints (zone t) dir start end_ t ++ readBucketsIn zone dir start end_ ts

/-- `GetHistoricalData` with the offset of local time as a function of the
instant. -/
def GetHistoricalDataIn (zone : Int → Int) (dir : Dir) (start end_ : Int) :
    Except String (List HistoricalData) :=
  .ok (readBucketsIn zone dir start end_ (examinedTimes start end_))

/-! ## capture.go -/

/-- The comparison `s[0:n] == lit` of a Go string with a literal of `n` ASCII
bytes; `none` is the run-time panic "slice bounds out of range", raised when
`n` exceeds `len(s)`. The first `n` bytes of `s` are the `n` ASCII bytes of
`lit` exactly when its first `n` characters are the characters of `lit`. -/
def slicePrefixEq (s : String) (n : Nat) (lit : String) : Option Bool :=
  if n ≤ s.utf8ByteSize then some (decide (s.data.take n = lit.data)) else none

/-- `isLocalIP`; `none` is a run-time panic. The operands of `&&` and `||` are
evaluated from left to right, up to the first that decides the result. -/
def isLocalIP (ip : String) : Option Bool :=
  if ¬ 0 < ip.utf8ByteSize then some false
  else
    match slicePrefixEq ip 3 "192" with
    | none => none
    | some true => some true
    | some false =>
      match slicePrefixEq ip 3 "172" with
      | none => none
      | some true => some true
      | some false =>
        match slicePrefixEq ip 2 "10" with
        | none => none
        | some true => some true
        | some false => some (decide (ip = "127.0.0.1" ∨ ip = "::1"))

/-- The network layer of a decoded packet, with the texts `SrcIP.String()` and
`DstIP.String()` of an IP layer. -/
inductive NetworkLayer where
  | absent
  | ipv4 (srcIP dstIP : String)
  | ipv6 (srcIP dstIP : String)
  | other
deriving DecidableEq, Repr

/-- The transport layer of a decoded packet, with the ports of TCP and UDP. -/
inductive TransportLayer where
  | absent
  | tcp (srcPort dstPort : Nat)
  | udp (srcPort dstPort : Nat)
  | other
deriving DecidableEq, Repr

/-- A `gopacket.Packet`, by what `processPacket` reads of it; `length` is
`len(packet.Data())`. -/
structure Packet where
  network : NetworkLayer
  transport : TransportLayer
  length : Nat
deriving DecidableEq, Repr

/-- The session key
`fmt.Sprintf("%s:%d-%s:%d-%s", srcIP, srcPort, dstIP, dstPort, protocol)`. -/
def connKey (srcIP : String) (srcPort : Nat) (dstIP : String) (dstPort : Nat)
    (protocol : String) : String :=
  srcIP ++ ":" ++ String.mk (Nat.toDigits 10 srcPort) ++ "-" ++
    dstIP ++ ":" ++ String.mk (Nat.toDigits 10 dstPort) ++ "-" ++ protocol

/-- The state of one run of `PacketCapture.Start` together with the tables of
the store it feeds. `Connection` objects live in `objects` and are referred to
by their index, since the session table and the store hold pointers to the
same objects; the store's interface table holds the pointer `stats` under
each of its keys. -/
structure CaptureState where
  objects : List Connection
  connections : List (String × Nat)
  stats : InterfaceStats
  storeConnections : List (String × Nat)
  storeInterfaces : List (String × Unit)
deriving DecidableEq, Repr

/-- The locals of `PacketCapture.Start` before its loop, over an empty store. -/
def newCaptureState (iface : String) : CaptureState :=
  { objects := []
    connections := []
    stats :=
      { Interface := iface, InBytes := 0, OutBytes := 0, InBytesPerSec := 0, OutBytesPerSec := 0
        InPackets := 0, OutPackets := 0, InPacketsPerSec := 0, OutPacketsPerSec := 0 }
    storeConnections := []
    storeInterfaces := [] }

/-- The store as its readers see it: every key with the object its pointer
reaches. -/
def CaptureState.store (w : CaptureState) : MemoryStorage :=
  { connections := w.storeConnections.filterMap (fun kp => (w.objects[kp.2]?).map (fun c => (kp.1, c)))
    interfaces := w.storeInterfaces.map (fun kp => (kp.1, w.stats))
    snapshots := []
    maxSnapshots := 3600 }

/-- The update of the interface counters in `processPacket`. -/
def countPacket (stats : InterfaceStats) (isIncoming : Bool) (packetLen : Nat) : InterfaceStats :=
  if isIncoming then
    { stats with
      InBytes := (stats.InBytes + packetLen % uint64Size) % uint64Size
      InBytesPerSec := (stats.InBytesPerSec + packetLen % uint64Size) % uint64Size
      InPackets := (stats.InPackets + 1) % uint64Size
      InPacketsPerSec := (stats.InPacketsPerSec + 1) % uint64Size }
  else
    { stats with
      OutBytes := (stats.OutBytes + packetLen % uint64Size) % uint64Size
      OutBytesPerSec := (stats.OutBytesPerSec + packetLen % uint64Size) % uint64Size
      OutPackets := (stats.OutPackets + 1) % uint64Size
      OutPacketsPerSec := (stats.OutPacketsPerSec + 1) % uint64Size }

/-- The end of `processPacket`, from "Create connection key" on. `now0` and
`now1` are the readings of `time.Now()` for `StartTime` and for `LastSeen`. -/
def trackConnection (w : CaptureState) (srcIP : String) (srcPort : Nat) (dstIP : String)
    (dstPort : Nat) (protocol : String) (packetLen : Nat) (now0 now1 : Int) : CaptureState :=
  let key := connKey srcIP srcPort dstIP dstPort protocol
  let created : CaptureState × Nat :=
    match mapGet w.connections key with
    | some conn => (w, conn)
    | none =>
      ({ w with
         objects := w.objects ++
           [{ SrcIP := srcIP, SrcPort := srcPort, DstIP := dstIP, DstPort := dstPort
              Protocol := protocol, Bytes := 0, BytesPerSec := 0, Packets := 0
              StartTime := now0, LastSeen := 0 }]
         connections := mapSet w.connections key w.objects.length }, w.objects.length)
  match created.1.objects[created.2]? with
  | none => created.1
  | some c =>
    { created.1 with
      objects := created.1.objects.set created.2
        { c with
          Bytes := (c.Bytes + packetLen % uint64Size) % uint64Size
          BytesPerSec := packetLen % uint64Size
          Packets := (c.Packets + 1) % uint64Size
          LastSeen := now1 } }

/-- `processPacket`; `none` is a run-time panic. -/
def processPacket (w : CaptureState) (packet : Packet) (now0 now1 : Int) :
    Option CaptureState :=
  match packet.network with
  | .absent => some w
  | .other => some w
  | .ipv4 srcIP dstIP | .ipv6 srcIP dstIP =>
    match isLocalIP dstIP with
    | none => none
    | some isIncoming =>
      let w1 := { w with stats := countPacket w.stats isIncoming packet.length }
      match packet.transport with
      | .absent => some w1
      | .other => some w1
      | .tcp srcPort dstPort =>
        some (trackConnection w1 srcIP srcPort dstIP dstPort "TCP" packet.length now0 now1)
      | .udp srcPort dstPort =>
        some (trackConnection w1 srcIP srcPort dstIP dstPort "UDP" packet.length now0 now1)

/-- One assignment `dst.field = f(dst, src)` through two pointers. -/
def assignThrough (objects : List Connection) (dst src : Nat)
    (f : Connection → Connection → Connection) : List Connection :=
  match objects[dst]?, objects[src]? with
  | some e, some c => objects.set dst (f e c)
  | _, _ => objects

/-- `MemoryStorage.UpdateConnection` on pointers: `conn` is the address of the
argument. Each assignment reads the objects as the one before left them. -/
def UpdateConnectionRef (w : CaptureState) (conn : Nat) : CaptureState :=
  match w.objects[conn]? with
  | none => w
  | some c =>
    let key := connectionKey c
    match mapGet w.storeConnections key with
    | some existing =>
      let o1 := assignThrough w.objects existing conn (fun e c =>
        { e with BytesPerSec := (e.BytesPerSec + c.BytesPerSec) % uint64Size / 2 })
      let o2 := assignThrough o1 existing conn (fun e c => { e with Bytes := c.Bytes })
      let o3 := assignThrough o2 existing conn (fun e c => { e with Packets := c.Packets })
      let o4 := assignThrough o3 existing conn (fun e c => { e with LastSeen := c.LastSeen })
      { w with objects := o4 }
    | none => { w with storeConnections := mapSet w.storeConnections key conn }

/-- The object the store holds under a key: `m.connections[key]`, followed
through the pointer. -/
def CaptureState.entry (w : CaptureState) (key : String) : Option Connection :=
  match mapGet w.storeConnections key with
  | some existing => w.objects[existing]?
  | none => none

/-- The loop `for _, conn := range connections` of the ticker case. -/
def flushConnections (w : CaptureState) : List (String × Nat) → CaptureState
  | [] => w
  | (_, conn) :: rest => flushConnections (UpdateConnectionRef w conn) rest

/-- The ticker case of the loop of `PacketCapture.Start`. -/
def flush (w : CaptureState) : CaptureState :=
  let w1 := { w with storeInterfaces := mapSet w.storeInterfaces w.stats.Interface () }
  let w2 := flushConnections w1 w1.connections
  { w2 with
    stats :=
      { w2.stats with
        InBytesPerSec := 0, OutBytesPerSec := 0, InPacketsPerSec := 0, OutPacketsPerSec := 0 } }

/-- What the loop of `PacketCapture.Start` receives before it is cancelled. -/
inductive Event where
  | packet (packet : Packet) (now0 now1 : Int)
  | tick
deriving DecidableEq, Repr

/-- The loop of `PacketCapture.Start` over the events it receives; `none` is a
run-time panic. -/
def runCapture (w : CaptureState) : List Event → Option CaptureState
  | [] => some w
  | .packet packet now0 now1 :: rest =>
    match processPacket w packet now0 now1 with
    | none => none
    | some w1 => runCapture w1 rest
  | .tick :: rest => runCapture (flush w) rest

/-- The 5-tuple `processPacket` extracts from a packet with an IP layer and a
TCP or UDP layer. -/
def fiveTuple (packet : Packet) : Option (String × Nat × String × Nat × String) :=
  match packet.network, packet.transport with
  | .ipv4 srcIP dstIP, .tcp srcPort dstPort => some (srcIP, srcPort, dstIP, dstPort, "TCP")
  | .ipv4 srcIP dstIP, .udp srcPort dstPort => some (srcIP, srcPort, dstIP, dstPort, "UDP")
  | .ipv6 srcIP dstIP, .tcp srcPort dstPort => some (srcIP, srcPort, dstIP, dstPort, "TCP")
  | .ipv6 srcIP dstIP, .udp srcPort dstPort => some (srcIP, srcPort, dstIP, dstPort, "UDP")
  | _, _ => none

/-- The sum of the lengths of the packets among the events. -/
def packetBytes : List Event → Nat
  | [] => 0
  | .packet packet _ _ :: rest => packet.length + packetBytes rest
  | .tick :: rest => packetBytes rest

/-- The number of packets among the events. -/
def packetCount : List Event → Nat
  | [] => 0
  | .packet _ _ _ :: rest => 1 + packetCount rest
  | .tick :: rest => packetCount rest

/-! ## capture.go: NewPacketCapture -/

/-- A device of `pcap.FindAllDevs`, by its name and `len(dev.Addresses)`. -/
structure Device where
  Name : String
  Addresses : Nat
deriving DecidableEq, Repr

/-- What libpcap answers during one call of `NewPacketCapture`: the result of
`pcap.FindAllDevs()`, `none` for an error, and whether `pcap.OpenLive` opens
the device of a given name. -/
structure Pcap where
  FindAllDevs : Option (List Device)
  OpenLive : String → Bool

/-- A `PacketCapture`; `handle` names the pcap handle it owns. -/
structure PacketCapture where
  handle : Nat
  iface : String
deriving DecidableEq, Repr

/-- The loop "Find first non-loopback interface" of `NewPacketCapture`. -/
def firstDevice : List Device → String → String
  | [], iface => iface
  | dev :: rest, iface =>
    if 0 < dev.Addresses ∧ dev.Name ≠ "lo" ∧ dev.Name ≠ "lo0" then dev.Name
    else firstDevice rest iface

/-- `NewPacketCapture`; `handle` is the name the new pcap handle gets. -/
def NewPacketCapture (pcap : Pcap) (handle : Nat) (iface : String) :
    Except String PacketCapture :=
  let selected : Except String String :=
    if iface = "" then
      match pcap.FindAllDevs with
      | none => .error "failed to find devices"
      | some devices =>
        if devices.length = 0 then .error "no network devices found"
        else .ok (firstDevice devices iface)
    else .ok iface
  match selected with
  | .error e => .error e
  | .ok iface1 =>
    if pcap.OpenLive iface1 then .ok { handle := handle, iface := iface1 }
    else .error ("failed to open device " ++ iface1)

/-! ## manager.go -/

/-- The `Manager`, with a record of what its calls did to the sessions. A
session is named by a number, which names its context, its cancel function
and its pcap handle: `cancel = some n` is the function that cancels context
`n`. `cancelled` lists the contexts cancelled so far, `closed` the handles
closed, `launched` the sessions whose goroutine was started, `finished` the
goroutines that have run to their end, and `nextId` names the next session.
The store is a `*storage.MemoryStorage`. -/
structure Manager where
  currentCapture : Option PacketCapture
  currentIface : String
  storage : MemoryStorage
  ctx : Option Nat
  cancel : Option Nat
  captureRunning : Bool
  cancelled : List Nat
  closed : List Nat
  launched : List PacketCapture
  finished : List Nat
  nextId : Nat

def NewManager (storage : MemoryStorage) : Manager :=
  { currentCapture := none, currentIface := "", storage := storage, ctx := none, cancel := none
    captureRunning := false, cancelled := [], closed := [], launched := [], finished := []
    nextId := 0 }

/-- `stopCapture`: the error it returns, always nil, and the manager after it.
The sleep of 100 ms has no effect on the fields. -/
def stopCapture (m : Manager) : Option String × Manager :=
  if ¬ m.captureRunning then (none, m)
  else
    let m1 :=
      match m.cancel with
      | some n => { m with cancelled := n :: m.cancelled }
      | none => m
    let m2 :=
      match m1.currentCapture with
      | some capture => { m1 with closed := capture.handle :: m1.closed, currentCapture := none }
      | none => m1
    (none, { m2 with captureRunning := false })

/-- `Start`: the error it returns and the manager after it; `pcap` is what
libpcap answers during the call. -/
def Start (m : Manager) (pcap : Pcap) (iface : String) : Option String × Manager :=
  let stopped : Option String × Manager :=
    if m.captureRunning then stopCapture m else (none, m)
  match stopped.1 with
  | some err => (some ("failed to stop current capture: " ++ err), stopped.2)
  | none =>
    let m1 := { stopped.2 with storage := ClearConnections stopped.2.storage }
    match NewPacketCapture pcap m1.nextId iface with
    | .error err => (some ("failed to create packet capture: " ++ err), m1)
    | .ok capturer =>
      (none,
        { m1 with
          currentCapture := some capturer
          currentIface := iface
          ctx := some m1.nextId
          cancel := some m1.nextId
          captureRunning := true
          launched := capturer :: m1.launched
          nextId := m1.nextId + 1 })

def SwitchInterface (m : Manager) (pcap : Pcap) (newIface : String) : Option String × Manager :=
  Start m pcap newIface

def GetCurrentInterface (m : Manager) : String := m.currentIface

def Stop (m : Manager) : Option String × Manager := stopCapture m

/-- The end of the goroutine of session `n`, after `capturer.Start` has
returned, which it does once its context is cancelled: the goroutine takes the
lock and clears `captureRunning`. -/
def goroutineExit (m : Manager) (n : Nat) : Manager :=
  if (∃ capture ∈ m.launched, capture.handle = n) ∧ n ∈ m.cancelled ∧ n ∉ m.finished then
    { m with captureRunning := false, finished := n :: m.finished }
  else m

/-- What can happen to a manager: a call of one of its methods, or the end of
the goroutine of a session. -/
inductive Call where
  | start (pcap : Pcap) (iface : String)
  | switchInterface (pcap : Pcap) (newIface : String)
  | stop
  | loopExit (n : Nat)

def applyCall (m : Manager) : Call → Manager
  | .start pcap iface => (Start m pcap iface).2
  | .switchInterface pcap newIface => (SwitchInterface m pcap newIface).2
  | .stop => (Stop m).2
  | .loopExit n => goroutineExit m n

/-- The manager after a sequence of events, in order. -/
def runCalls (m : Manager) : List Call → Manager
  | [] => m
  | call :: rest => runCalls (applyCall m call) rest

/-- Whether `NewPacketCapture` succeeds for an interface name. -/
def opens (pcap : Pcap) (iface : String) : Bool :=
  match NewPacketCapture pcap 0 iface with
  | .ok _ => true
  | .error _ => false

/-- The argument of the most recent `Start` or `SwitchInterface` among the
events whose device opened, and `cur` if there is none. -/
def lastStarted (cur : String) : List Call → String
  | [] => cur
  | .start pcap iface :: rest => lastStarted (if opens pcap iface then iface else cur) rest
  | .switchInterface pcap iface :: rest =>
    lastStarted (if opens pcap iface then iface else cur) rest
  | .stop :: rest => lastStarted cur rest
  | .loopExit _ :: rest => lastStarted cur rest

/-! ## Scenario data -/

/-- A TCP connection 1.2.3.4:1111 → 10.0.0.5:80, last seen 10 s after the epoch. -/
def tcpConn : Connection :=
  { SrcIP := "1.2.3.4", SrcPort := 1111, DstIP := "10.0.0.5", DstPort := 80, Protocol := "TCP"
    Bytes := 100, BytesPerSec := 100, Packets := 1
    StartTime := 9 * Second, LastSeen := 10 * Second }

/-- A UDP connection 1.2.3.4:5353 → 10.0.0.5:53, last seen 10 s after the epoch. -/
def udpConn : Connection :=
  { SrcIP := "1.2.3.4", SrcPort := 5353, DstIP := "10.0.0.5", DstPort := 53, Protocol := "UDP"
    Bytes := 60, BytesPerSec := 60, Packets := 1
    StartTime := 9 * Second, LastSeen := 10 * Second }

/-- A later report of the connection of `tcpConn`. -/
def tcpConnLater : Connection :=
  { tcpConn with Bytes := 300, BytesPerSec := 200, Packets := 2, LastSeen := 11 * Second }

/-- A store holding `tcpConn` and `udpConn`. -/
def twoConnStore : MemoryStorage :=
  UpdateConnection (UpdateConnection NewMemoryStorage tcpConn) udpConn

/-- A store holding `tcpConn` alone. -/
def oneConnStore : MemoryStorage := UpdateConnection NewMemoryStorage tcpConn

/-- Two reports of the scenario connection as two objects, `tcpConn` at the
address 0 and `tcpConnLater` at the address 1, and an empty store. -/
def twoReports : CaptureState :=
  { newCaptureState "eth0" with objects := [tcpConn, tcpConnLater] }

/-- The same two objects after `UpdateConnection` of the first: the store holds
the object at the address 0. -/
def storedReport : CaptureState := UpdateConnectionRef twoReports 0

/-- A TCP connection from the ephemeral port 55296 (0xD800). -/
def portConnA : Connection := { tcpConn with SrcPort := 55296 }

/-- A TCP connection between the same hosts from the ephemeral port 55297
(0xD801), with its own counters. -/
def portConnB : Connection :=
  { tcpConn with SrcPort := 55297, Bytes := 7000, BytesPerSec := 500, Packets := 9
                 LastSeen := 12 * Second }

/-- The filter without a constraint. -/
def noFilter : Filter := { IP := "", Port := 0, Protocol := "" }

/-- The instant 2024-01-01 13:59:30 UTC. -/
def t135930 : Int := 1704117570 * Second

/-- The instant 2024-01-01 14:00:30 UTC. -/
def t140030 : Int := 1704117630 * Second

/-- Interface counters of one tick. -/
def ifaceStats : InterfaceStats :=
  { Interface := "eth0", InBytes := 5000, OutBytes := 7000, InBytesPerSec := 100
    OutBytesPerSec := 200, InPackets := 50, OutPackets := 70, InPacketsPerSec := 3
    OutPacketsPerSec := 4 }

/-- A snapshot taken at 13:59:45 UTC. -/
def snapBefore : TrafficSnapshot :=
  { Timestamp := t135930 + 15 * Second, Interface := some ifaceStats, Connections := [tcpConn] }

/-- A snapshot taken at 14:00:15 UTC. -/
def snapAfter : TrafficSnapshot :=
  { Timestamp := t140030 - 15 * Second
    Interface := some { ifaceStats with InBytesPerSec := 110, OutPacketsPerSec := 5 }
    Connections := [] }

/-- A directory without files. -/
def emptyDir : Dir := fun _ => none

/-- The directory after `snapBefore` is saved into `emptyDir`, local time being
UTC. -/
def dirOne : Dir :=
  fun n => if n = fileName 0 snapBefore.Timestamp then some (jsonMarshal ([] ++ [snapBefore]))
    else emptyDir n

/-- The directory after `snapAfter` is saved into `dirOne`. -/
def dirTwo : Dir :=
  fun n => if n = fileName 0 snapAfter.Timestamp then some (jsonMarshal ([] ++ [snapAfter]))
    else dirOne n

/-- What `json.Unmarshal` stores from the text
`[{"timestamp":"2024-01-01T13:59:30Z","connections":7}]` before it reports
that a number does not fit the field `connections`. -/
def snapPartial : TrafficSnapshot :=
  { Timestamp := t135930, Interface := none, Connections := [] }

/-- A directory whose 13:00 bucket holds the text of `snapPartial`: JSON of the
wrong shape. -/
def dirMalformed : Dir :=
  fun n => if n = fileName 0 t135930 then some (.malformed [snapPartial]) else none

/-- A report whose rate is `2^63` bytes per second. -/
def fastConn : Connection := { tcpConn with BytesPerSec := 9223372036854775808 }

/-- A store holding `fastConn`. -/
def fastStore : MemoryStorage := UpdateConnection NewMemoryStorage fastConn

/-- A TCP packet of `n` bytes from 1.2.3.4:1111 to 10.0.0.5:80. -/
def tcpPacket (n : Nat) : Packet :=
  { network := .ipv4 "1.2.3.4" "10.0.0.5", transport := .tcp 1111 80, length := n }

/-- The same packet in the other direction. -/
def tcpReply (n : Nat) : Packet :=
  { network := .ipv4 "10.0.0.5" "1.2.3.4", transport := .tcp 80 1111, length := n }

/-- An IPv6 UDP packet whose destination is the unspecified address, whose
text is `::`. -/
def unspecifiedPacket : Packet :=
  { network := .ipv6 "fe80::1" "::", transport := .udp 546 547, length := 90 }

/-- Two packets of the scenario connection, of 100 and 200 bytes, with a tick
after the first. -/
def twoPacketEvents : List Event :=
  [.packet (tcpPacket 100) (1 * Second) (1 * Second), .tick,
    .packet (tcpPacket 200) (2 * Second) (2 * Second)]

/-- A libpcap with the devices `lo` and `eth0` on which every device opens. -/
def pcapOk : Pcap :=
  { FindAllDevs := some [{ Name := "lo", Addresses := 1 }, { Name := "eth0", Addresses := 2 }]
    OpenLive := fun _ => true }

/-- A libpcap on which no device opens. -/
def pcapFail : Pcap :=
  { FindAllDevs := some [{ Name := "lo", Addresses := 1 }, { Name := "eth0", Addresses := 2 }]
    OpenLive := fun _ => false }

/-- The snapshot `GetSnapshot` returns at 13:59:50 from a store that has just
been cleared: it has no interface. -/
def snapNoIface : TrafficSnapshot :=
  GetSnapshot (ClearConnections twoConnStore) (t135930 + 20 * Second) (t135930 + 20 * Second)

/-- A directory whose 13:00 bucket holds `snapNoIface`. -/
def dirNoIface : Dir :=
  fun n => if n = fileName 0 snapNoIface.Timestamp then some (.array [snapNoIface]) else none

/-- The offset of local time in New York around the end of daylight saving
time in 2024: four hours behind UTC before 2024-11-03 06:00 UTC, five hours
behind from then on. -/
def newYork (t : Int) : Int :=
  if t < 1730613600 * Second then -4 * Hour else -5 * Hour

/-- A snapshot taken at 2024-11-03 05:30 UTC, which is 01:30 in New York, in
daylight saving time. -/
def snapFallBack : TrafficSnapshot :=
  { Timestamp := 1730611800 * Second, Interface := some ifaceStats, Connections := [] }

/-- A directory whose bucket of the local hour of `snapFallBack` holds that
snapshot. -/
def dirFallBack : Dir :=
  fun n => if n = fileName (newYork snapFallBack.Timestamp) snapFallBack.Timestamp
    then some (.array [snapFallBack]) else none

/-! ## Proof aids -/

/-- The number a text of decimal digits denotes. -/
def digitsValue (l : List Char) : Nat := l.foldl (fun acc c => 10 * acc + (c.toNat - 48)) 0

/-- The state of a session that has seen packets of one 5-tuple only: one
object `c`, held by the session under `key` and, once flushed, by the store. -/
def SingleFlow (w : CaptureState) (c : Connection) (key : String) (stored : Bool) : Prop :=
  w.objects = [c] ∧ w.connections = [(key, 0)] ∧
    w.storeConnections = (if stored then [(connectionKey c, 0)] else [])

/-- Whether day `doe` of a 400-year era lies in the year `yoe` of the era, as
`civilFromDays` counts the days before that year. -/
def okY (doe yoe : Nat) : Bool :=
  Nat.ble (365 * yoe + yoe / 4 - yoe / 100) doe &&
    Nat.ble doe (365 * yoe + yoe / 4 - yoe / 100 + 365)

/-- Whether the year `civilFromDays` assigns to day `doe` of an era holds that
day. -/
def okDoe (doe : Nat) : Bool :=
  okY doe ((doe - doe / 1460 + doe / 36524 - doe / 146096) / 365)

/-- The numerator of the year of the era in `civilFromDays`. -/
def scaledDay (doe : Nat) : Nat := doe - doe / 1460 + doe / 36524 - doe / 146096

/-- The days of an era before its year `yoe`, as `civilFromDays` counts
them. -/
def daysBefore (yoe : Nat) : Nat := 365 * yoe + yoe / 4 - yoe / 100

/-- Whether the last day before year `yoe` of an era is assigned to an earlier
year and the first day of the next year to a later one. -/
def yearOk (yoe : Nat) : Bool :=
  (yoe == 0 || Nat.blt (scaledDay (daysBefore yoe - 1)) (365 * yoe)) &&
    (yoe == 399 || Nat.ble (365 * (yoe + 1)) (scaledDay (daysBefore (yoe + 1))))

/-- Whether `p` holds of the `2 ^ d` numbers from `s` on. -/
def checkFrom (p : Nat → Bool) : Nat → Nat → Bool
  | 0, s => p s
  | d + 1, s => checkFrom p d s && checkFrom p d (s + 2 ^ d)

/-- What the calls keep true of a manager: while `captureRunning` is set a
capture and a cancel function are recorded, and a recorded capture of a
non-empty `currentIface` is on that interface. -/
def ManagerInv (m : Manager) : Prop :=
  (m.captureRunning = true → ∃ capture n, m.currentCapture = some capture ∧ m.cancel = some n) ∧
    ∀ capture, m.currentCapture = some capture → m.currentIface ≠ "" →
      capture.iface = m.currentIface

/-! ## Go maps: lemmas -/

theorem mapGet_mapSet_self {α : Type} (m : List (String × α)) (k : String) (v : α) :
    mapGet (mapSet m k v) k = some v := by
  induction m with
  | nil => simp [mapSet, mapGet]
  | cons p rest ih =>
    obtain ⟨k', v'⟩ := p
    by_cases h : k' = k
    · simp [mapSet, mapGet, h]
    · simp [mapSet, mapGet, h, ih]

theorem mapGet_mapSet_other {α : Type} (m : List (String × α)) (k k2 : String) (v : α)
    (hk : k2 ≠ k) : mapGet (mapSet m k v) k2 = mapGet m k2 := by
  induction m with
  | nil => simp [mapSet, mapGet, Ne.symm hk]
  | cons p rest ih =>
    obtain ⟨k', v'⟩ := p
    by_cases h : k' = k
    · subst h
      simp [mapSet, mapGet, Ne.symm hk]
    · simp [mapSet, mapGet, h, ih]

theorem mapGet_some_mem {α : Type} (m : List (String × α)) (k : String) (v : α)
    (h : mapGet m k = some v) : (k, v) ∈ m := by
  induction m with
  | nil => simp [mapGet] at h
  | cons p rest ih =>
    obtain ⟨k', v'⟩ := p
    by_cases hk : k' = k
    · simp [mapGet, hk] at h
      simp [hk, h]
    · simp [mapGet, hk] at h
      exact List.mem_cons_of_mem _ (ih h)

theorem mem_mapGet_of_nodup {α : Type} (m : List (String × α)) (k : String) (v : α)
    (hnd : (m.map Prod.fst).Nodup) (h : (k, v) ∈ m) : mapGet m k = some v := by
  induction m with
  | nil => simp at h
  | cons p rest ih =>
    obtain ⟨k', v'⟩ := p
    simp only [List.map_cons, List.nodup_cons, List.mem_map, not_exists, not_and] at hnd
    rcases List.mem_cons.1 h with heq | hmem
    · simp only [Prod.mk.injEq] at heq
      simp [mapGet, heq.1, heq.2]
    · have hne : k' ≠ k := fun e => hnd.1 (k, v) hmem e.symm
      simp [mapGet, hne, ih hnd.2 hmem]

theorem mem_mapSet {α : Type} (m : List (String × α)) (k : String) (v : α) (p : String × α)
    (h : p ∈ mapSet m k v) : p = (k, v) ∨ p ∈ m := by
  induction m with
  | nil => simpa [mapSet] using h
  | cons q rest ih =>
    obtain ⟨k', v'⟩ := q
    by_cases hk : k' = k
    · simp only [mapSet, hk, if_true, List.mem_cons] at h
      rcases h with h | h
      · exact Or.inl h
      · exact Or.inr (List.mem_cons_of_mem _ h)
    · simp only [mapSet, hk, if_false, List.mem_cons] at h
      rcases h with h | h
      · exact Or.inr (by simp [h])
      · rcases ih h with h2 | h2
        · exact Or.inl h2
        · exact Or.inr (List.mem_cons_of_mem _ h2)

theorem mapSet_keys_nodup {α : Type} (m : List (String × α)) (k : String) (v : α)
    (hnd : (m.map Prod.fst).Nodup) : ((mapSet m k v).map Prod.fst).Nodup := by
  induction m with
  | nil => simp [mapSet]
  | cons q rest ih =>
    obtain ⟨k', v'⟩ := q
    simp only [List.map_cons, List.nodup_cons] at hnd
    by_cases hk : k' = k
    · subst hk
      simpa [mapSet] using hnd
    · simp only [mapSet, hk, if_false, List.map_cons, List.nodup_cons]
      refine ⟨?_, ih hnd.2⟩
      intro hmem
      obtain ⟨p, hp, hpk⟩ := List.mem_map.1 hmem
      rcases mem_mapSet rest k v p hp with h | h
      · exact hk (by rw [← hpk, h])
      · exact hnd.1 (List.mem_map.2 ⟨p, h, hpk⟩)

/-! ## memory.go: lemmas -/

theorem UpdateConnection_absent (m : MemoryStorage) (c : Connection)
    (h : mapGet m.connections (connectionKey c) = none) :
    UpdateConnection m c =
      { m with connections := mapSet m.connections (connectionKey c) c } := by
  simp [UpdateConnection, h]

theorem UpdateConnection_present (m : MemoryStorage) (c e : Connection)
    (h : mapGet m.connections (connectionKey c) = some e) :
    UpdateConnection m c =
      { m with
        connections := mapSet m.connections (connectionKey c)
          { e with
            BytesPerSec := (e.BytesPerSec + c.BytesPerSec) % uint64Size / 2
            Bytes := c.Bytes
            Packets := c.Packets
            LastSeen := c.LastSeen } } := by
  simp [UpdateConnection, h]

theorem NewMemoryStorage_WF : NewMemoryStorage.WF := by
  simp [MemoryStorage.WF, NewMemoryStorage]

theorem UpdateConnection_WF (m : MemoryStorage) (c : Connection) (hwf : m.WF) :
    (UpdateConnection m c).WF := by
  cases h : mapGet m.connections (connectionKey c) with
  | none =>
    rw [UpdateConnection_absent m c h]
    refine ⟨mapSet_keys_nodup _ _ _ hwf.1, ?_⟩
    intro p hp
    rcases mem_mapSet _ _ _ p hp with h1 | h1
    · rw [h1]
    · exact hwf.2 p h1
  | some e =>
    rw [UpdateConnection_present m c e h]
    refine ⟨mapSet_keys_nodup _ _ _ hwf.1, ?_⟩
    intro p hp
    rcases mem_mapSet _ _ _ p hp with h1 | h1
    · rw [h1]
      exact hwf.2 (connectionKey c, e) (mapGet_some_mem _ _ _ h)
    · exact hwf.2 p h1

theorem UpdateInterface_WF (m : MemoryStorage) (stats : InterfaceStats) (hwf : m.WF) :
    (UpdateInterface m stats).WF := hwf

theorem ClearConnections_WF (m : MemoryStorage) : (ClearConnections m).WF := by
  simp [MemoryStorage.WF, ClearConnections]

theorem twoConnStore_WF : twoConnStore.WF :=
  UpdateConnection_WF _ _ (UpdateConnection_WF _ _ NewMemoryStorage_WF)

/-! ## memory.go: UpdateConnection -/

/-- C1 (amended): `UpdateConnection` is an upsert by connection key. With no
entry under `connectionKey c` the entry afterwards is `c`. With an entry `e`,
the entry afterwards has the `Bytes`, `Packets` and `LastSeen` of `c`, its
`BytesPerSec` is `((e.BytesPerSec + c.BytesPerSec) mod 2^64) / 2`, which is the
mean rounded down whenever the sum is below `2^64`, and its `SrcIP`, `SrcPort`,
`DstIP`, `DstPort`, `Protocol` and `StartTime` are those of `e`. The entries of
all other keys and the interface table are unchanged. -/
theorem UpdateConnection_upsert (m : MemoryStorage) (c : Connection) :
    (mapGet m.connections (connectionKey c) = none →
      mapGet (UpdateConnection m c).connections (connectionKey c) = some c) ∧
    (∀ e, mapGet m.connections (connectionKey c) = some e →
      ∃ e', mapGet (UpdateConnection m c).connections (connectionKey c) = some e' ∧
        e'.Bytes = c.Bytes ∧ e'.Packets = c.Packets ∧ e'.LastSeen = c.LastSeen ∧
        e'.BytesPerSec = (e.BytesPerSec + c.BytesPerSec) % uint64Size / 2 ∧
        (e.BytesPerSec + c.BytesPerSec < uint64Size →
          e'.BytesPerSec = (e.BytesPerSec + c.BytesPerSec) / 2) ∧
        e'.SrcIP = e.SrcIP ∧ e'.SrcPort = e.SrcPort ∧ e'.DstIP = e.DstIP ∧
        e'.DstPort = e.DstPort ∧ e'.Protocol = e.Protocol ∧ e'.StartTime = e.StartTime) ∧
    (∀ k, k ≠ connectionKey c →
      mapGet (UpdateConnection m c).connections k = mapGet m.connections k) ∧
    (UpdateConnection m c).interfaces = m.interfaces := by
  refine ⟨?_, ?_, ?_, ?_⟩
  · intro h
    rw [UpdateConnection_absent m c h]
    exact mapGet_mapSet_self _ _ _
  · intro e h
    rw [UpdateConnection_present m c e h]
    refine ⟨_, mapGet_mapSet_self _ _ _, rfl, rfl, rfl, rfl, ?_, rfl, rfl, rfl, rfl, rfl, rfl⟩
    intro hlt
    show (e.BytesPerSec + c.BytesPerSec) % uint64Size / 2 = _
    rw [Nat.mod_eq_of_lt hlt]
  · intro k hk
    cases h : mapGet m.connections (connectionKey c) with
    | none =>
      rw [UpdateConnection_absent m c h]
      exact mapGet_mapSet_other _ _ _ _ hk
    | some e =>
      rw [UpdateConnection_present m c e h]
      exact mapGet_mapSet_other _ _ _ _ hk
  · cases h : mapGet m.connections (connectionKey c) with
    | none => rw [UpdateConnection_absent m c h]
    | some e => rw [UpdateConnection_present m c e h]

/-- Witness of C1: the later report of `tcpConn` merged into a store that holds
`tcpConn`. -/
theorem UpdateConnection_upsert_witness :
    ∃ e', mapGet (UpdateConnection twoConnStore tcpConnLater).connections
        (connectionKey tcpConnLater) = some e' ∧
      e'.Bytes = 300 ∧ e'.Packets = 2 ∧ e'.LastSeen = 11 * Second ∧
      e'.BytesPerSec = (100 + 200) % uint64Size / 2 ∧
      (100 + 200 < uint64Size → e'.BytesPerSec = (100 + 200) / 2) ∧
      e'.SrcIP = "1.2.3.4" ∧ e'.SrcPort = 1111 ∧ e'.DstIP = "10.0.0.5" ∧
      e'.DstPort = 80 ∧ e'.Protocol = "TCP" ∧ e'.StartTime = 9 * Second :=
  (UpdateConnection_upsert twoConnStore tcpConnLater).2.1 tcpConn (by decide)

/-- C1 as stated fails: merging a report of `2^63` bytes per second into an
entry of `2^63` bytes per second leaves `0`, while the mean of the two 64-bit
values is `2^63`. -/
theorem UpdateConnection_mean_counterexample :
    mapGet fastStore.connections (connectionKey fastConn) = some fastConn ∧
    fastConn.BytesPerSec < uint64Size ∧
    (mapGet (UpdateConnection fastStore fastConn).connections (connectionKey fastConn)).map
        Connection.BytesPerSec = some 0 ∧
    (fastConn.BytesPerSec + fastConn.BytesPerSec) / 2 = 9223372036854775808 := by
  decide

/-! ## memory.go: GetSnapshot -/

theorem activeConnections_eq (cutoff : Int) (l : List (String × Connection)) :
    activeConnections cutoff l =
      (l.map Prod.snd).filter (fun c => decide (cutoff < c.LastSeen)) := by
  induction l with
  | nil => rfl
  | cons p rest ih =>
    obtain ⟨k, c⟩ := p
    by_cases h : cutoff < c.LastSeen
    · simp [activeConnections, h, ih]
    · simp [activeConnections, h, ih]

theorem WF_values_nodup (m : MemoryStorage) (hwf : m.WF) :
    (m.connections.map Prod.snd).Nodup := by
  have hkeys : (m.connections.map Prod.snd).map connectionKey = m.connections.map Prod.fst := by
    rw [List.map_map]
    apply List.map_congr_left
    intro p hp
    exact (hwf.2 p hp).symm
  apply List.Nodup.of_map connectionKey
  rw [hkeys]
  exact hwf.1

/-- C2: a stored connection is in the list `GetSnapshot` returns exactly when
it was last seen less than 5 seconds before the call; no connection is
returned twice, and every returned connection is a stored one. -/
theorem GetSnapshot_active_window (m : MemoryStorage) (hwf : m.WF) (now0 now1 : Int) :
    (∀ k C, mapGet m.connections k = some C →
      (C ∈ (GetSnapshot m now0 now1).Connections ↔ now1 - C.LastSeen < 5 * Second)) ∧
    (∀ C, (GetSnapshot m now0 now1).Connections.count C ≤ 1) ∧
    (∀ C ∈ (GetSnapshot m now0 now1).Connections, ∃ k, mapGet m.connections k = some C) := by
  refine ⟨?_, ?_, ?_⟩
  · intro k C hC
    have hmem : C ∈ m.connections.map Prod.snd :=
      List.mem_map.2 ⟨(k, C), mapGet_some_mem _ _ _ hC, rfl⟩
    simp only [GetSnapshot, activeConnections_eq, List.mem_filter, decide_eq_true_eq]
    constructor
    · intro h
      linarith [h.2]
    · intro h
      exact ⟨hmem, by linarith⟩
  · intro C
    have hnd : (GetSnapshot m now0 now1).Connections.Nodup := by
      simp only [GetSnapshot, activeConnections_eq]
      exact (WF_values_nodup m hwf).filter _
    exact List.nodup_iff_count_le_one.1 hnd C
  · intro C hC
    simp only [GetSnapshot, activeConnections_eq, List.mem_filter] at hC
    obtain ⟨p, hp, hpC⟩ := List.mem_map.1 hC.1
    refine ⟨p.1, mem_mapGet_of_nodup _ _ _ hwf.1 ?_⟩
    rw [← hpC]
    exact hp

/-- Witness of C2: the store of the two scenario connections, read 2 seconds
and 5 seconds after they were last seen. -/
theorem GetSnapshot_active_window_witness :
    (tcpConn ∈ (GetSnapshot twoConnStore (12 * Second) (12 * Second)).Connections ↔
      12 * Second - tcpConn.LastSeen < 5 * Second) ∧
    (GetSnapshot twoConnStore (12 * Second) (12 * Second)).Connections.count tcpConn ≤ 1 ∧
    (udpConn ∈ (GetSnapshot twoConnStore (15 * Second) (15 * Second)).Connections ↔
      15 * Second - udpConn.LastSeen < 5 * Second) :=
  ⟨(GetSnapshot_active_window twoConnStore twoConnStore_WF (12 * Second) (12 * Second)).1
      (connectionKey tcpConn) tcpConn (by decide),
    (GetSnapshot_active_window twoConnStore twoConnStore_WF (12 * Second) (12 * Second)).2.1
      tcpConn,
    (GetSnapshot_active_window twoConnStore twoConnStore_WF (15 * Second) (15 * Second)).1
      (connectionKey udpConn) udpConn (by decide)⟩

/-! ## memory.go: GetFilteredConnections -/

theorem mem_filterLoop (filter : Filter) (cutoff : Int) (l : List (String × Connection))
    (c : Connection) :
    c ∈ filterLoop filter cutoff l ↔
      c ∈ l.map Prod.snd ∧ ¬ c.LastSeen < cutoff ∧
        (filter.IP = "" ∨ c.SrcIP = filter.IP ∨ c.DstIP = filter.IP) ∧
        (filter.Port = 0 ∨ c.SrcPort = filter.Port ∨ c.DstPort = filter.Port) ∧
        (filter.Protocol = "" ∨ c.Protocol = filter.Protocol) := by
  induction l with
  | nil => simp [filterLoop]
  | cons p rest ih =>
    obtain ⟨k, conn⟩ := p
    simp only [filterLoop, List.map_cons, List.mem_cons]
    split_ifs with h1 h2 h3 h4
    · rw [ih]
      constructor
      · intro h
        exact ⟨Or.inr h.1, h.2⟩
      · rintro ⟨hm | hm, hrest⟩
        · subst hm
          exact absurd h1 hrest.1
        · exact ⟨hm, hrest⟩
    · rw [ih]
      constructor
      · intro h
        exact ⟨Or.inr h.1, h.2⟩
      · rintro ⟨hm | hm, hrest⟩
        · subst hm
          exfalso
          rcases hrest.2.1 with h | h | h
          · exact h2.1 h
          · exact h2.2.1 h
          · exact h2.2.2 h
        · exact ⟨hm, hrest⟩
    · rw [ih]
      constructor
      · intro h
        exact ⟨Or.inr h.1, h.2⟩
      · rintro ⟨hm | hm, hrest⟩
        · subst hm
          exfalso
          rcases hrest.2.2.1 with h | h | h
          · exact h3.1 h
          · exact h3.2.1 h
          · exact h3.2.2 h
        · exact ⟨hm, hrest⟩
    · rw [ih]
      constructor
      · intro h
        exact ⟨Or.inr h.1, h.2⟩
      · rintro ⟨hm | hm, hrest⟩
        · subst hm
          exfalso
          rcases hrest.2.2.2 with h | h
          · exact h4.1 h
          · exact h4.2 h
        · exact ⟨hm, hrest⟩
    · simp only [List.mem_cons, ih]
      constructor
      · rintro (hm | hm)
        · subst hm
          refine ⟨Or.inl rfl, h1, ?_, ?_, ?_⟩
          · by_contra hc
            push_neg at hc
            exact h2 hc
          · by_contra hc
            push_neg at hc
            exact h3 hc
          · by_contra hc
            push_neg at hc
            exact h4 hc
        · exact ⟨Or.inr hm.1, hm.2⟩
      · rintro ⟨hm | hm, hrest⟩
        · exact Or.inl hm
        · exact Or.inr ⟨hm, hrest⟩

/-- C3: every connection `GetFilteredConnections` returns satisfies the
filter, and every stored connection last seen less than 5 seconds before the
call that satisfies the filter is returned. With the filter
`{Protocol: "UDP"}` over a store of one active TCP and one active UDP
connection the result is the UDP connection alone. -/
theorem GetFilteredConnections_filter (m : MemoryStorage) (f : Filter) (now : Int) :
    (∀ c ∈ GetFilteredConnections m f now,
      (f.IP = "" ∨ f.IP = c.SrcIP ∨ f.IP = c.DstIP) ∧
      (f.Port = 0 ∨ f.Port = c.SrcPort ∨ f.Port = c.DstPort) ∧
      (f.Protocol = "" ∨ f.Protocol = c.Protocol)) ∧
    (∀ k c, mapGet m.connections k = some c → now - c.LastSeen < 5 * Second →
      (f.IP = "" ∨ f.IP = c.SrcIP ∨ f.IP = c.DstIP) →
      (f.Port = 0 ∨ f.Port = c.SrcPort ∨ f.Port = c.DstPort) →
      (f.Protocol = "" ∨ f.Protocol = c.Protocol) →
      c ∈ GetFilteredConnections m f now) ∧
    (∀ k1 k2 tcp udp,
      (m.connections = [(k1, tcp), (k2, udp)] ∨ m.connections = [(k2, udp), (k1, tcp)]) →
      tcp.Protocol = "TCP" → udp.Protocol = "UDP" →
      now - tcp.LastSeen < 5 * Second → now - udp.LastSeen < 5 * Second →
      GetFilteredConnections m { IP := "", Port := 0, Protocol := "UDP" } now = [udp]) := by
  refine ⟨?_, ?_, ?_⟩
  · intro c hc
    rw [GetFilteredConnections, mem_filterLoop] at hc
    obtain ⟨_, _, hip, hport, hproto⟩ := hc
    refine ⟨?_, ?_, ?_⟩
    · rcases hip with h | h | h
      · exact Or.inl h
      · exact Or.inr (Or.inl h.symm)
      · exact Or.inr (Or.inr h.symm)
    · rcases hport with h | h | h
      · exact Or.inl h
      · exact Or.inr (Or.inl h.symm)
      · exact Or.inr (Or.inr h.symm)
    · rcases hproto with h | h
      · exact Or.inl h
      · exact Or.inr h.symm
  · intro k c hc hact hip hport hproto
    rw [GetFilteredConnections, mem_filterLoop]
    refine ⟨List.mem_map.2 ⟨(k, c), mapGet_some_mem _ _ _ hc, rfl⟩, ?_, ?_, ?_, ?_⟩
    · intro hlt
      linarith
    · rcases hip with h | h | h
      · exact Or.inl h
      · exact Or.inr (Or.inl h.symm)
      · exact Or.inr (Or.inr h.symm)
    · rcases hport with h | h | h
      · exact Or.inl h
      · exact Or.inr (Or.inl h.symm)
      · exact Or.inr (Or.inr h.symm)
    · rcases hproto with h | h
      · exact Or.inl h
      · exact Or.inr h.symm
  · intro k1 k2 tcp udp hm htcp hudp hact1 hact2
    have h1 : ¬ tcp.LastSeen < now + (-5) * Second := by
      intro hlt
      linarith
    have h2 : ¬ udp.LastSeen < now + (-5) * Second := by
      intro hlt
      linarith
    rcases hm with hm | hm
    · simp only [GetFilteredConnections, hm, filterLoop, if_neg h1, if_neg h2, htcp, hudp]
      simp
    · simp only [GetFilteredConnections, hm, filterLoop, if_neg h1, if_neg h2, htcp, hudp]
      simp

/-- Witness of C3: the store of the two scenario connections, filtered 2
seconds after they were last seen. -/
theorem GetFilteredConnections_filter_witness :
    (udpConn ∈ GetFilteredConnections twoConnStore { IP := "10.0.0.5", Port := 53, Protocol := "" }
      (12 * Second)) ∧
    GetFilteredConnections twoConnStore { IP := "", Port := 0, Protocol := "UDP" }
      (12 * Second) = [udpConn] :=
  ⟨(GetFilteredConnections_filter twoConnStore { IP := "10.0.0.5", Port := 53, Protocol := "" }
      (12 * Second)).2.1 (connectionKey udpConn) udpConn (by decide) (by decide)
      (Or.inr (Or.inr rfl)) (Or.inr (Or.inr rfl)) (Or.inl rfl),
    (GetFilteredConnections_filter twoConnStore noFilter (12 * Second)).2.2
      (connectionKey tcpConn) (connectionKey udpConn) tcpConn udpConn (Or.inl (by decide))
      rfl rfl (by decide) (by decide)⟩

/-- C4 fails on the code at the boundary: for a connection last seen exactly 5
seconds before the call, `GetFilteredConnections` with the filter without a
constraint returns it and `GetSnapshot` at the same instant does not. -/
theorem filtered_differs_from_snapshot_at_boundary :
    mapGet oneConnStore.connections (connectionKey tcpConn) = some tcpConn ∧
    15 * Second - tcpConn.LastSeen = 5 * Second ∧
    GetFilteredConnections oneConnStore noFilter (15 * Second) = [tcpConn] ∧
    (GetSnapshot oneConnStore (15 * Second) (15 * Second)).Connections = [] := by
  decide

/-- Away from the boundary the two reads agree: when no stored connection was
last seen exactly 5 seconds before the call, `GetFilteredConnections` with the
filter without a constraint returns the list of `GetSnapshot`. -/
theorem filtered_eq_snapshot_off_boundary (m : MemoryStorage) (now0 now : Int)
    (h : ∀ p ∈ m.connections, p.2.LastSeen ≠ now + (-5) * Second) :
    GetFilteredConnections m noFilter now = (GetSnapshot m now0 now).Connections := by
  simp only [GetFilteredConnections, GetSnapshot]
  revert h
  generalize now + (-5) * Second = cutoff
  generalize m.connections = l
  intro h
  induction l with
  | nil => rfl
  | cons p rest ih =>
    obtain ⟨k, c⟩ := p
    have hc : c.LastSeen ≠ cutoff := h (k, c) (List.mem_cons_self _ _)
    have ih2 := ih (fun q hq => h q (List.mem_cons_of_mem _ hq))
    by_cases hlt : c.LastSeen < cutoff
    · have hn : ¬ cutoff < c.LastSeen := by
        intro h2
        exact absurd (lt_trans hlt h2) (lt_irrefl _)
      simp [filterLoop, activeConnections, hlt, hn, ih2]
    · have hgt : cutoff < c.LastSeen := lt_of_le_of_ne (not_lt.1 hlt) (Ne.symm hc)
      simp only [filterLoop, activeConnections, if_neg hlt, if_pos hgt, ih2]
      simp [noFilter]

/-! ## memory.go: connectionKey -/

/-- C5 fails on the code: the connections from the source ports 55296 and
55297 differ in their 5-tuple and have the same `connectionKey`, since
`string(port)` turns both ports into U+FFFD; `UpdateConnection` merges the
second into the entry of the first. -/
theorem connectionKey_collision :
    portConnA.SrcPort ≠ portConnB.SrcPort ∧
    portConnA.SrcPort < 65536 ∧ portConnB.SrcPort < 65536 ∧
    connectionKey portConnA = connectionKey portConnB ∧
    (UpdateConnection (UpdateConnection NewMemoryStorage portConnA) portConnB).connections =
      [(connectionKey portConnA,
        { portConnA with Bytes := 7000, BytesPerSec := 300, Packets := 9
                         LastSeen := 12 * Second })] := by
  decide

/-! ## memory.go: order of updates

`UpdateConnection` keeps the pointer it is given and merges through the stored
pointer, so what two successive calls leave depends on whether an argument is
the stored object. The calls are therefore followed on the objects
(`UpdateConnectionRef`). -/

theorem assignThrough_eq (objects : List Connection) (dst src : Nat)
    (f : Connection → Connection → Connection) (e c : Connection)
    (he : objects[dst]? = some e) (hc : objects[src]? = some c) :
    assignThrough objects dst src f = objects.set dst (f e c) := by
  simp [assignThrough, he, hc]

theorem getElem?_set_same (objects : List Connection) (p : Nat) (e x : Connection)
    (he : objects[p]? = some e) : (objects.set p x)[p]? = some x := by
  have hp : p < objects.length := by
    by_contra hlt
    rw [List.getElem?_eq_none (not_lt.1 hlt)] at he
    exact absurd he (by simp)
  rw [List.getElem?_set, if_pos rfl, if_pos hp]

/-- `UpdateConnection` when the store has an object under the key: the four
assignments leave the merged object at the stored address, also when the
argument is the stored object itself. -/
theorem UpdateConnectionRef_present (w : CaptureState) (conn p : Nat) (c e : Connection)
    (hc : w.objects[conn]? = some c)
    (hp : mapGet w.storeConnections (connectionKey c) = some p)
    (he : w.objects[p]? = some e) :
    UpdateConnectionRef w conn =
      { w with
        objects := w.objects.set p
          { e with
            BytesPerSec := (e.BytesPerSec + c.BytesPerSec) % uint64Size / 2
            Bytes := c.Bytes, Packets := c.Packets, LastSeen := c.LastSeen } } := by
  simp only [UpdateConnectionRef, hc, hp]
  by_cases hpc : p = conn
  · subst hpc
    have hec : e = c := Option.some.inj (he.symm.trans hc)
    subst hec
    rw [assignThrough_eq _ _ _ _ e e he he]
    rw [assignThrough_eq _ _ _ _ _ _ (getElem?_set_same _ _ _ _ he) (getElem?_set_same _ _ _ _ he),
      List.set_set]
    rw [assignThrough_eq _ _ _ _ _ _ (getElem?_set_same _ _ _ _ he) (getElem?_set_same _ _ _ _ he),
      List.set_set]
    rw [assignThrough_eq _ _ _ _ _ _ (getElem?_set_same _ _ _ _ he) (getElem?_set_same _ _ _ _ he),
      List.set_set]
  · have hsrc : ∀ x, (w.objects.set p x)[conn]? = some c := by
      intro x
      rw [List.getElem?_set_ne hpc, hc]
    rw [assignThrough_eq _ _ _ _ e c he hc]
    rw [assignThrough_eq _ _ _ _ _ _ (getElem?_set_same _ _ _ _ he) (hsrc _), List.set_set]
    rw [assignThrough_eq _ _ _ _ _ _ (getElem?_set_same _ _ _ _ he) (hsrc _), List.set_set]
    rw [assignThrough_eq _ _ _ _ _ _ (getElem?_set_same _ _ _ _ he) (hsrc _), List.set_set]

theorem UpdateConnectionRef_absent (w : CaptureState) (conn : Nat) (c : Connection)
    (hc : w.objects[conn]? = some c)
    (hp : mapGet w.storeConnections (connectionKey c) = none) :
    UpdateConnectionRef w conn =
      { w with storeConnections := mapSet w.storeConnections (connectionKey c) conn } := by
  simp only [UpdateConnectionRef, hc, hp]

theorem connectionKey_merge (e c : Connection) (x : Nat) :
    connectionKey
      { e with BytesPerSec := x, Bytes := c.Bytes, Packets := c.Packets, LastSeen := c.LastSeen }
      = connectionKey e := rfl

/-- Two calls of `UpdateConnection` for two objects with the same key: the
entry has the cumulative fields of the second argument, unless the second
argument is the object the store held, which the first call has overwritten. -/
theorem UpdateConnectionRef_twice (w : CaptureState) (a b : Nat) (ca cb : Connection)
    (ha : w.objects[a]? = some ca) (hb : w.objects[b]? = some cb)
    (hkey : connectionKey ca = connectionKey cb)
    (hstored : ∀ p, mapGet w.storeConnections (connectionKey ca) = some p →
      p < w.objects.length) :
    ((UpdateConnectionRef (UpdateConnectionRef w a) b).entry (connectionKey ca)).map
        (fun e => (e.Bytes, e.Packets, e.LastSeen)) =
      some (if mapGet w.storeConnections (connectionKey ca) = some b
        then (ca.Bytes, ca.Packets, ca.LastSeen) else (cb.Bytes, cb.Packets, cb.LastSeen)) := by
  cases hs : mapGet w.storeConnections (connectionKey ca) with
  | none =>
    rw [if_neg (by simp)]
    rw [UpdateConnectionRef_absent w a ca ha hs]
    rw [UpdateConnectionRef_present
      { w with storeConnections := mapSet w.storeConnections (connectionKey ca) a } b a cb ca hb
      (by rw [← hkey]; exact mapGet_mapSet_self _ _ _) ha]
    simp only [CaptureState.entry, mapGet_mapSet_self, getElem?_set_same _ _ _ _ ha, Option.map_some']
  | some p =>
    have hp := hstored p hs
    obtain ⟨e, he⟩ : ∃ e, w.objects[p]? = some e := ⟨_, List.getElem?_eq_getElem hp⟩
    rw [UpdateConnectionRef_present w a p ca e ha hs he]
    by_cases hpb : p = b
    · subst hpb
      have hec : e = cb := Option.some.inj (he.symm.trans hb)
      subst hec
      rw [if_pos rfl]
      rw [UpdateConnectionRef_present
        { w with
          objects := w.objects.set p
            { e with
              BytesPerSec := (e.BytesPerSec + ca.BytesPerSec) % uint64Size / 2
              Bytes := ca.Bytes, Packets := ca.Packets, LastSeen := ca.LastSeen } }
        p p _ _ (getElem?_set_same _ _ _ _ he)
        (by rw [connectionKey_merge, ← hkey]; exact hs) (getElem?_set_same _ _ _ _ he)]
      simp only [CaptureState.entry, hs, getElem?_set_same _ _ _ _ (getElem?_set_same _ _ _ _ he),
        Option.map_some']
    · rw [if_neg (by simpa using hpb)]
      have hb1 : (w.objects.set p
          { e with
            BytesPerSec := (e.BytesPerSec + ca.BytesPerSec) % uint64Size / 2
            Bytes := ca.Bytes, Packets := ca.Packets, LastSeen := ca.LastSeen })[b]? = some cb := by
        rw [List.getElem?_set_ne hpb, hb]
      rw [UpdateConnectionRef_present
        { w with
          objects := w.objects.set p
            { e with
              BytesPerSec := (e.BytesPerSec + ca.BytesPerSec) % uint64Size / 2
              Bytes := ca.Bytes, Packets := ca.Packets, LastSeen := ca.LastSeen } }
        b p cb _ hb1 (by rw [← hkey]; exact hs) (getElem?_set_same _ _ _ _ he)]
      simp only [CaptureState.entry, hs, getElem?_set_same _ _ _ _ (getElem?_set_same _ _ _ _ he),
        Option.map_some']

/-- C6 (amended): on the cumulative fields `UpdateConnection` is "last write
wins" through the stored pointer. For two objects `a` and `b` with the same
key, after `UpdateConnection(a)` then `UpdateConnection(b)` the entry has the
`Bytes`, `Packets` and `LastSeen` that `b` had before the two calls, unless `b`
is the object the store already held under the key, which the first call has
overwritten with those of `a`; and likewise for the opposite order. The two
orders leave the same cumulative fields exactly when `a` or `b` is the stored
object or `a` and `b` carry the same cumulative fields. Here `a` and `b` are
addresses of objects `ca` and `cb`, and the pointer the store holds under the
key, if any, reaches an object, as every pointer of the Go map does. -/
theorem UpdateConnectionRef_last_write_wins (w : CaptureState) (a b : Nat) (ca cb : Connection)
    (ha : w.objects[a]? = some ca) (hb : w.objects[b]? = some cb)
    (hkey : connectionKey ca = connectionKey cb)
    (hstored : ∀ p, mapGet w.storeConnections (connectionKey ca) = some p →
      p < w.objects.length) :
    ((UpdateConnectionRef (UpdateConnectionRef w a) b).entry (connectionKey ca)).map
        (fun e => (e.Bytes, e.Packets, e.LastSeen)) =
      some (if mapGet w.storeConnections (connectionKey ca) = some b
        then (ca.Bytes, ca.Packets, ca.LastSeen) else (cb.Bytes, cb.Packets, cb.LastSeen)) ∧
    ((UpdateConnectionRef (UpdateConnectionRef w b) a).entry (connectionKey ca)).map
        (fun e => (e.Bytes, e.Packets, e.LastSeen)) =
      some (if mapGet w.storeConnections (connectionKey ca) = some a
        then (cb.Bytes, cb.Packets, cb.LastSeen) else (ca.Bytes, ca.Packets, ca.LastSeen)) ∧
    (((UpdateConnectionRef (UpdateConnectionRef w a) b).entry (connectionKey ca)).map
        (fun e => (e.Bytes, e.Packets, e.LastSeen)) =
      ((UpdateConnectionRef (UpdateConnectionRef w b) a).entry (connectionKey ca)).map
        (fun e => (e.Bytes, e.Packets, e.LastSeen)) ↔
      (mapGet w.storeConnections (connectionKey ca) = some a ∨
        mapGet w.storeConnections (connectionKey ca) = some b ∨
        (ca.Bytes = cb.Bytes ∧ ca.Packets = cb.Packets ∧ ca.LastSeen = cb.LastSeen))) := by
  have hab := UpdateConnectionRef_twice w a b ca cb ha hb hkey hstored
  have hba := UpdateConnectionRef_twice w b a cb ca hb ha hkey.symm (by rw [← hkey]; exact hstored)
  rw [← hkey] at hba
  refine ⟨hab, hba, ?_⟩
  rw [hab, hba]
  by_cases hsa : mapGet w.storeConnections (connectionKey ca) = some a
  · by_cases hsb : mapGet w.storeConnections (connectionKey ca) = some b
    · have hab' : a = b := Option.some.inj (hsa.symm.trans hsb)
      subst hab'
      have hcc : ca = cb := Option.some.inj (ha.symm.trans hb)
      subst hcc
      simp [hsa]
    · have hne : a ≠ b := fun h => hsb (h ▸ hsa)
      simp [hsa, hne]
  · by_cases hsb : mapGet w.storeConnections (connectionKey ca) = some b
    · have hne : b ≠ a := fun h => hsa (h ▸ hsb)
      simp [hsb, hne]
    · rw [if_neg hsa, if_neg hsb]
      simp only [Option.some.injEq, Prod.mk.injEq, hsa, hsb, false_or]
      constructor
      · rintro ⟨h1, h2, h3⟩; exact ⟨h1.symm, h2.symm, h3.symm⟩
      · rintro ⟨h1, h2, h3⟩; exact ⟨h1.symm, h2.symm, h3.symm⟩

/-- Witness of C6: the two reports of the scenario connection as two objects.
Over an empty store the entry ends with the fields of the second argument in
each order; over the store that holds the first object, both orders leave the
fields of the other object. -/
theorem UpdateConnectionRef_last_write_wins_witness :
    ((UpdateConnectionRef (UpdateConnectionRef twoReports 0) 1).entry (connectionKey tcpConn)).map
        (fun e => (e.Bytes, e.Packets, e.LastSeen)) = some (300, 2, 11 * Second) ∧
    ((UpdateConnectionRef (UpdateConnectionRef twoReports 1) 0).entry (connectionKey tcpConn)).map
        (fun e => (e.Bytes, e.Packets, e.LastSeen)) = some (100, 1, 10 * Second) ∧
    ((UpdateConnectionRef (UpdateConnectionRef storedReport 0) 1).entry (connectionKey tcpConn)).map
        (fun e => (e.Bytes, e.Packets, e.LastSeen)) = some (300, 2, 11 * Second) ∧
    ((UpdateConnectionRef (UpdateConnectionRef storedReport 1) 0).entry (connectionKey tcpConn)).map
        (fun e => (e.Bytes, e.Packets, e.LastSeen)) = some (300, 2, 11 * Second) :=
  ⟨(UpdateConnectionRef_last_write_wins twoReports 0 1 tcpConn tcpConnLater rfl rfl (by decide)
      (fun p h => by simp [twoReports, newCaptureState, mapGet] at h)).1.trans (by decide),
    (UpdateConnectionRef_last_write_wins twoReports 0 1 tcpConn tcpConnLater rfl rfl (by decide)
      (fun p h => by simp [twoReports, newCaptureState, mapGet] at h)).2.1.trans (by decide),
    (UpdateConnectionRef_last_write_wins storedReport 0 1 tcpConn tcpConnLater rfl rfl (by decide)
      (fun p h => by
        have hp : p = 0 := (Option.some.inj ((by decide : mapGet storedReport.storeConnections
          (connectionKey tcpConn) = some 0).symm.trans h)).symm
        rw [hp]
        decide)).1.trans (by decide),
    (UpdateConnectionRef_last_write_wins storedReport 0 1 tcpConn tcpConnLater rfl rfl (by decide)
      (fun p h => by
        have hp : p = 0 := (Option.some.inj ((by decide : mapGet storedReport.storeConnections
          (connectionKey tcpConn) = some 0).symm.trans h)).symm
        rw [hp]
        decide)).2.1.trans (by decide)⟩

/-- C6 as stated fails: the two reports of the scenario connection are two
objects with the same key, the store is empty, and the entry holds 300 bytes
and 2 packets after one order of the two updates and 100 bytes and 1 packet
after the other. -/
theorem UpdateConnectionRef_order_counterexample :
    twoReports.objects[0]? = some tcpConn ∧ twoReports.objects[1]? = some tcpConnLater ∧
    connectionKey tcpConn = connectionKey tcpConnLater ∧
    ((UpdateConnectionRef (UpdateConnectionRef twoReports 0) 1).entry (connectionKey tcpConn)).map
        (fun e => (e.Bytes, e.Packets, e.LastSeen)) = some (300, 2, 11 * Second) ∧
    ((UpdateConnectionRef (UpdateConnectionRef twoReports 1) 0).entry (connectionKey tcpConn)).map
        (fun e => (e.Bytes, e.Packets, e.LastSeen)) = some (100, 1, 10 * Second) := by
  decide

/-! ## memory.go: ClearConnections -/

/-- C7: after `ClearConnections`, `GetSnapshot` returns no connection and a nil
interface, and `GetFilteredConnections` returns the empty list for every
filter, whatever the store held. -/
theorem ClearConnections_then_read (m : MemoryStorage) (now0 now1 now : Int) (f : Filter) :
    (GetSnapshot (ClearConnections m) now0 now1).Connections = [] ∧
    (GetSnapshot (ClearConnections m) now0 now1).Interface = none ∧
    GetFilteredConnections (ClearConnections m) f now = [] :=
  ⟨rfl, rfl, rfl⟩

/-! ## file.go: the loop over the hours -/

theorem Hour_pos : 0 < Hour := by decide

theorem Hour_eq : Hour = 3600000000000 := by decide

theorem mem_loopTimes (fuel : Nat) (t0 e t : Int) :
    t ∈ loopTimes fuel t0 e ↔ ∃ j : Nat, j < fuel ∧ t = t0 + j * Hour ∧ t ≤ e := by
  induction fuel generalizing t0 with
  | zero => simp [loopTimes]
  | succ n ih =>
    simp only [loopTimes]
    split_ifs with hlt
    · constructor
      · intro h
        simp at h
      · rintro ⟨j, _, rfl, hle⟩
        have hj : 0 ≤ (j : Int) * Hour := mul_nonneg (Int.ofNat_nonneg j) (le_of_lt Hour_pos)
        linarith
    · rw [List.mem_cons, ih]
      constructor
      · rintro (h | ⟨j, hj, rfl, hle⟩)
        · exact ⟨0, Nat.succ_pos n, by simp [h], by rw [h]; exact not_lt.1 hlt⟩
        · exact ⟨j + 1, by omega, by push_cast; ring, hle⟩
      · rintro ⟨j, hj, rfl, hle⟩
        cases j with
        | zero => exact Or.inl (by simp)
        | succ j => exact Or.inr ⟨j, by omega, by push_cast; ring, hle⟩

/-- The fuel of `GetHistoricalData` is enough: the loop leaves through its
guard, and more fuel gives the same iterations. -/
theorem loopTimes_fuel_enough (start end_ : Int) (k : Nat) :
    loopTimes (loopFuel (Truncate start Hour) (Truncate (end_ + Hour) Hour) + k)
        (Truncate start Hour) (Truncate (end_ + Hour) Hour) =
      examinedTimes start end_ := by
  have step : ∀ (fuel : Nat) (t e : Int), e - t < fuel * Hour →
      loopTimes (fuel + 1) t e = loopTimes fuel t e := by
    intro fuel
    induction fuel with
    | zero =>
      intro t e h
      have hlt : e < t := by simpa using h
      simp [loopTimes, hlt]
    | succ n ih =>
      intro t e h
      have h2 : e - (t + Hour) < n * Hour := by
        push_cast at h
        linarith
      rw [loopTimes, ih (t + Hour) e h2]
      rfl
  have hfuel : ∀ (s e : Int), e - s < (loopFuel s e : Nat) * Hour := by
    intro s e
    simp only [loopFuel, Hour_eq]
    omega
  induction k with
  | zero => rfl
  | succ k ih =>
    rw [← ih, ← Nat.add_assoc]
    apply step
    have := hfuel (Truncate start Hour) (Truncate (end_ + Hour) Hour)
    have hk : (0 : Int) ≤ (k : Int) * Hour := mul_nonneg (Int.ofNat_nonneg k) (le_of_lt Hour_pos)
    push_cast
    linarith

theorem mem_examinedTimes (start end_ t : Int) :
    t ∈ examinedTimes start end_ ↔
      Hour ∣ t ∧ Truncate start Hour ≤ t ∧ t ≤ Truncate (end_ + Hour) Hour := by
  simp only [examinedTimes, mem_loopTimes]
  constructor
  · rintro ⟨j, _, rfl, hle⟩
    refine ⟨?_, ?_, hle⟩
    · simp only [Truncate, Hour_eq]
      omega
    · have hj : 0 ≤ (j : Int) * Hour := mul_nonneg (Int.ofNat_nonneg j) (le_of_lt Hour_pos)
      linarith
  · rintro ⟨hdvd, hge, hle⟩
    refine ⟨((t - Truncate start Hour) / Hour).toNat, ?_, ?_, hle⟩
    · simp only [Truncate, Hour_eq, loopFuel] at *
      omega
    · simp only [Truncate, Hour_eq] at *
      omega

theorem bucket_examined (loc start end_ x : Int) (hs : start ≤ x) (he : x ≤ end_) :
    ∃ t ∈ examinedTimes start end_, (t + loc) / Hour = (x + loc) / Hour := by
  by_cases hb : (x + loc) / Hour = (Truncate x Hour + loc) / Hour
  · refine ⟨Truncate x Hour, ?_, hb.symm⟩
    rw [mem_examinedTimes]
    simp only [Truncate, Hour_eq] at *
    omega
  · refine ⟨Truncate x Hour + Hour, ?_, ?_⟩
    · rw [mem_examinedTimes]
      simp only [Truncate, Hour_eq] at *
      omega
    · simp only [Truncate, Hour_eq] at *
      omega

theorem fileName_examined (loc start end_ x : Int) (hs : start ≤ x) (he : x ≤ end_) :
    ∃ t ∈ examinedTimes start end_, fileName loc t = fileName loc x := by
  obtain ⟨t, ht, hidx⟩ := bucket_examined loc start end_ x hs he
  exact ⟨t, ht, by simp only [fileName, hidx]⟩

/-! ## file.go: reading -/

theorem mem_snapshotPoints (start end_ : Int) (l : List TrafficSnapshot) (p : HistoricalData) :
    p ∈ snapshotPoints start end_ l ↔
      ∃ s ∈ l, start ≤ s.Timestamp ∧ s.Timestamp ≤ end_ ∧
        ∃ iface, s.Interface = some iface ∧
          p = { Timestamp := s.Timestamp
                InBytes := iface.InBytesPerSec
                OutBytes := iface.OutBytesPerSec
                InPackets := iface.InPacketsPerSec
                OutPackets := iface.OutPacketsPerSec } := by
  induction l with
  | nil => simp [snapshotPoints]
  | cons s rest ih =>
    simp only [snapshotPoints, List.mem_cons, exists_eq_or_imp]
    split_ifs with hout
    · rw [ih]
      constructor
      · intro h
        exact Or.inr h
      · rintro (⟨h1, h2, _⟩ | h)
        · rcases hout with h3 | h3
          · exact absurd h1 (not_le.2 h3)
          · exact absurd h2 (not_le.2 h3)
        · exact h
    · have hin : start ≤ s.Timestamp ∧ s.Timestamp ≤ end_ := by
        constructor
        · exact not_lt.1 (fun h => hout (Or.inl h))
        · exact not_lt.1 (fun h => hout (Or.inr h))
      cases hi : s.Interface with
      | none =>
        simp only [ih]
        constructor
        · intro h
          exact Or.inr h
        · rintro (⟨_, _, iface, h3, _⟩ | h)
          · simp at h3
          · exact h
      | some iface =>
        simp only [List.mem_cons, ih]
        constructor
        · rintro (h | h)
          · exact Or.inl ⟨hin.1, hin.2, iface, rfl, h⟩
          · exact Or.inr h
        · rintro (⟨_, _, iface2, h3, h4⟩ | h)
          · simp only [Option.some.injEq] at h3
            subst h3
            exact Or.inl h4
          · exact Or.inr h

theorem mem_readBuckets (loc : Int) (dir : Dir) (start end_ : Int) (ts : List Int)
    (p : HistoricalData) :
    p ∈ readBuckets loc dir start end_ ts ↔ ∃ t ∈ ts, p ∈ bucketPoints loc dir start end_ t := by
  induction ts with
  | nil => simp [readBuckets]
  | cons t rest ih => simp [readBuckets, ih]

theorem bucketPoints_array (loc : Int) (dir : Dir) (start end_ t : Int)
    (l : List TrafficSnapshot) (h : dir (fileName loc t) = some (.array l)) :
    bucketPoints loc dir start end_ t = snapshotPoints start end_ l := by
  simp [bucketPoints, h, jsonUnmarshal]

/-! ## file.go: SaveSnapshot -/

theorem SaveSnapshot_ok (loc : Int) (dir dir' : Dir) (s : TrafficSnapshot)
    (marshalErr writeErr : Bool) (h : SaveSnapshot loc dir s marshalErr writeErr = .ok dir') :
    dir' = fun n =>
      if n = fileName loc s.Timestamp then
        some (.array ((match dir (fileName loc s.Timestamp) with
          | some data => (jsonUnmarshal data).1
          | none => []) ++ [s]))
      else dir n := by
  cases marshalErr <;> cases writeErr <;> simp [SaveSnapshot] at h
  rw [← h]
  rfl

/-- A successful `SaveSnapshot` keeps every data point a bucket gave before. -/
theorem SaveSnapshot_keeps_points (loc : Int) (dir dir' : Dir) (s : TrafficSnapshot)
    (marshalErr writeErr : Bool) (h : SaveSnapshot loc dir s marshalErr writeErr = .ok dir')
    (start end_ t : Int) (p : HistoricalData) (hp : p ∈ bucketPoints loc dir start end_ t) :
    p ∈ bucketPoints loc dir' start end_ t := by
  rw [SaveSnapshot_ok loc dir dir' s marshalErr writeErr h]
  by_cases hn : fileName loc t = fileName loc s.Timestamp
  · simp only [bucketPoints, hn, if_true, jsonUnmarshal]
    simp only [bucketPoints, hn] at hp
    cases hd : dir (fileName loc s.Timestamp) with
    | none => simp [hd] at hp
    | some data =>
      cases data with
      | malformed decoded => simp [hd, jsonUnmarshal] at hp
      | array l =>
        simp only [hd, jsonUnmarshal] at hp ⊢
        rw [mem_snapshotPoints] at hp ⊢
        obtain ⟨s0, hs0, hrest⟩ := hp
        exact ⟨s0, List.mem_append_left _ hs0, hrest⟩
  · simpa only [bucketPoints, hn, if_false] using hp

/-- The data point a saved snapshot gives is returned for a range around its
timestamp. -/
theorem SaveSnapshot_point (loc : Int) (dir dir' : Dir) (s : TrafficSnapshot)
    (marshalErr writeErr : Bool) (h : SaveSnapshot loc dir s marshalErr writeErr = .ok dir')
    (iface : InterfaceStats) (hi : s.Interface = some iface)
    (start end_ : Int) (hs : start ≤ s.Timestamp) (he : s.Timestamp ≤ end_) :
    ∃ t ∈ examinedTimes start end_,
      ({ Timestamp := s.Timestamp
         InBytes := iface.InBytesPerSec
         OutBytes := iface.OutBytesPerSec
         InPackets := iface.InPacketsPerSec
         OutPackets := iface.OutPacketsPerSec } : HistoricalData) ∈
        bucketPoints loc dir' start end_ t := by
  obtain ⟨t, ht, hname⟩ := fileName_examined loc start end_ s.Timestamp hs he
  refine ⟨t, ht, ?_⟩
  have hfile := SaveSnapshot_ok loc dir dir' s marshalErr writeErr h
  rw [bucketPoints_array loc dir' start end_ t _ (by rw [hfile, hname]; simp; rfl)]
  rw [mem_snapshotPoints]
  exact ⟨s, by simp, hs, he, iface, hi, rfl⟩

/-- C8: after a successful `SaveSnapshot(s)` of a snapshot with an interface,
`GetHistoricalData(start, end)` returns, for every range with
`start ≤ s.Timestamp ≤ end`, every offset of local time and every earlier
content of the directory, a data point with the timestamp of `s` and its four
per-second interface counters. After a second successful save of a snapshot of
the range, in the same or in another hour bucket, both data points are
returned. -/
theorem SaveSnapshot_GetHistoricalData_roundtrip (loc : Int) (dir dir' : Dir)
    (s : TrafficSnapshot) (marshalErr writeErr : Bool) (iface : InterfaceStats)
    (start end_ : Int) (hi : s.Interface = some iface)
    (hs : start ≤ s.Timestamp) (he : s.Timestamp ≤ end_)
    (hsave : SaveSnapshot loc dir s marshalErr writeErr = .ok dir') :
    (∃ pts, GetHistoricalData loc dir' start end_ = .ok pts ∧
      ({ Timestamp := s.Timestamp
         InBytes := iface.InBytesPerSec
         OutBytes := iface.OutBytesPerSec
         InPackets := iface.InPacketsPerSec
         OutPackets := iface.OutPacketsPerSec } : HistoricalData) ∈ pts) ∧
    (∀ (s2 : TrafficSnapshot) (iface2 : InterfaceStats) (dir2 : Dir) (marshalErr2 writeErr2 : Bool),
      s2.Interface = some iface2 → start ≤ s2.Timestamp → s2.Timestamp ≤ end_ →
      SaveSnapshot loc dir' s2 marshalErr2 writeErr2 = .ok dir2 →
      ∃ pts, GetHistoricalData loc dir2 start end_ = .ok pts ∧
        ({ Timestamp := s.Timestamp
           InBytes := iface.InBytesPerSec
           OutBytes := iface.OutBytesPerSec
           InPackets := iface.InPacketsPerSec
           OutPackets := iface.OutPacketsPerSec } : HistoricalData) ∈ pts ∧
        ({ Timestamp := s2.Timestamp
           InBytes := iface2.InBytesPerSec
           OutBytes := iface2.OutBytesPerSec
           InPackets := iface2.InPacketsPerSec
           OutPackets := iface2.OutPacketsPerSec } : HistoricalData) ∈ pts) := by
  obtain ⟨t, ht, hpt⟩ :=
    SaveSnapshot_point loc dir dir' s marshalErr writeErr hsave iface hi start end_ hs he
  refine ⟨⟨_, rfl, (mem_readBuckets _ _ _ _ _ _).2 ⟨t, ht, hpt⟩⟩, ?_⟩
  intro s2 iface2 dir2 marshalErr2 writeErr2 hi2 hs2 he2 hsave2
  obtain ⟨t2, ht2, hpt2⟩ :=
    SaveSnapshot_point loc dir' dir2 s2 marshalErr2 writeErr2 hsave2 iface2 hi2 start end_ hs2 he2
  refine ⟨_, rfl, (mem_readBuckets _ _ _ _ _ _).2 ⟨t, ht, ?_⟩,
    (mem_readBuckets _ _ _ _ _ _).2 ⟨t2, ht2, hpt2⟩⟩
  exact SaveSnapshot_keeps_points loc dir' dir2 s2 marshalErr2 writeErr2 hsave2 start end_ t _ hpt

/-- Witness of C8: a snapshot of 13:59:45 and one of 14:00:15 saved into an
empty directory, read back over 13:59:30 to 14:00:30; the two lie in
different buckets. -/
theorem SaveSnapshot_GetHistoricalData_roundtrip_witness :
    fileName 0 snapBefore.Timestamp ≠ fileName 0 snapAfter.Timestamp ∧
    (∃ pts, GetHistoricalData 0 dirOne t135930 t140030 = .ok pts ∧
      ({ Timestamp := t135930 + 15 * Second, InBytes := 100, OutBytes := 200, InPackets := 3
         OutPackets := 4 } : HistoricalData) ∈ pts) ∧
    (∃ pts, GetHistoricalData 0 dirTwo t135930 t140030 = .ok pts ∧
      ({ Timestamp := t135930 + 15 * Second, InBytes := 100, OutBytes := 200, InPackets := 3
         OutPackets := 4 } : HistoricalData) ∈ pts ∧
      ({ Timestamp := t140030 - 15 * Second, InBytes := 110, OutBytes := 200, InPackets := 3
         OutPackets := 5 } : HistoricalData) ∈ pts) :=
  ⟨by decide,
    (SaveSnapshot_GetHistoricalData_roundtrip 0 emptyDir dirOne snapBefore false false ifaceStats
      t135930 t140030 rfl (by decide) (by decide) rfl).1,
    (SaveSnapshot_GetHistoricalData_roundtrip 0 emptyDir dirOne snapBefore false false ifaceStats
      t135930 t140030 rfl (by decide) (by decide) rfl).2 snapAfter
      { ifaceStats with InBytesPerSec := 110, OutPacketsPerSec := 5 } dirTwo false false
      rfl (by decide) (by decide) rfl⟩

/-- What a successful `SaveSnapshot(s)` writes: it rewrites the bucket file of
the local hour of `s.Timestamp` and no other file. The bucket then holds the
list that reading the old content gave, followed by `s`: the empty list for a
missing bucket, the stored list for a bucket that parses, and for a bucket on
which `json.Unmarshal` reports an error whatever the call had stored by then,
since the error is not looked at. -/
theorem SaveSnapshot_appends (loc : Int) (dir dir' : Dir) (s : TrafficSnapshot)
    (marshalErr writeErr : Bool)
    (hsave : SaveSnapshot loc dir s marshalErr writeErr = .ok dir') :
    (dir (fileName loc s.Timestamp) = none →
      dir' (fileName loc s.Timestamp) = some (.array [s])) ∧
    (∀ l, dir (fileName loc s.Timestamp) = some (.array l) →
      dir' (fileName loc s.Timestamp) = some (.array (l ++ [s]))) ∧
    (∀ decoded, dir (fileName loc s.Timestamp) = some (.malformed decoded) →
      dir' (fileName loc s.Timestamp) = some (.array (decoded ++ [s]))) ∧
    (∀ n, n ≠ fileName loc s.Timestamp → dir' n = dir n) := by
  rw [SaveSnapshot_ok loc dir dir' s marshalErr writeErr hsave]
  refine ⟨?_, ?_, ?_, ?_⟩
  · intro h
    simp [h]
  · intro l h
    simp [h, jsonUnmarshal]
  · intro decoded h
    simp [h, jsonUnmarshal]
  · intro n hn
    simp [hn]

/-- An instance of `SaveSnapshot_appends`: `snapAfter` saved into the directory
that holds `snapBefore` in the bucket of the hour before. -/
theorem SaveSnapshot_appends_witness :
    dirTwo (fileName 0 snapAfter.Timestamp) = some (.array [snapAfter]) ∧
    (∀ n, n ≠ fileName 0 snapAfter.Timestamp → dirTwo n = dirOne n) :=
  ⟨(SaveSnapshot_appends 0 dirOne dirTwo snapAfter false false rfl).1 (by decide),
    (SaveSnapshot_appends 0 dirOne dirTwo snapAfter false false rfl).2.2.2⟩

/-- C9 fails on the code: the 13:00 bucket of `dirMalformed` does not parse.
`GetHistoricalData` checks the error of `json.Unmarshal` and skips the bucket,
so that it reads nothing from it; `SaveSnapshot` does not look at the error,
and after `SaveSnapshot(snapBefore)` the bucket holds the snapshot the failed
parse had stored followed by `snapBefore`, not `snapBefore` alone. -/
theorem SaveSnapshot_ignores_unmarshal_error :
    dirMalformed (fileName 0 snapBefore.Timestamp) = some (.malformed [snapPartial]) ∧
    (jsonUnmarshal (.malformed [snapPartial])).2 = false ∧
    t135930 ≤ snapPartial.Timestamp ∧ snapPartial.Timestamp ≤ t140030 ∧
    (∃ pts, GetHistoricalData 0 dirMalformed t135930 t140030 = .ok pts ∧ pts = []) ∧
    ∃ dir', SaveSnapshot 0 dirMalformed snapBefore false false = .ok dir' ∧
      dir' (fileName 0 snapBefore.Timestamp) = some (.array [snapPartial, snapBefore]) ∧
      dir' (fileName 0 snapBefore.Timestamp) ≠ some (FileData.array [snapBefore]) := by
  refine ⟨by decide, rfl, by decide, by decide, ⟨_, rfl, by decide⟩, _, rfl, by decide,
    by decide⟩

/-- C10 (amended): for `start ≤ end`, `GetHistoricalData(start, end)` reads the
buckets of the whole UTC hours from the hour containing `start` to the hour
containing `end + 1h`. These include the bucket of every instant of
`[start, end]` for every offset of local time, and one hour of slack after
`end`. There is no slack before `start`: when local time is a whole number of
hours from UTC, no bucket read is the one of the hour containing
`start - 1h`. -/
theorem examinedFiles_slack (loc start end_ : Int) (h : start ≤ end_) :
    (∀ t, t ∈ examinedTimes start end_ ↔
      Hour ∣ t ∧ Truncate start Hour ≤ t ∧ t ≤ Truncate (end_ + Hour) Hour) ∧
    (∀ x, start ≤ x → x ≤ end_ → fileName loc x ∈ examinedFiles loc start end_) ∧
    fileName loc (Truncate (end_ + Hour) Hour) ∈ examinedFiles loc start end_ ∧
    (Hour ∣ loc → fileName loc (end_ + Hour) ∈ examinedFiles loc start end_) ∧
    (Hour ∣ loc → ∀ t ∈ examinedTimes start end_,
      (t + loc) / Hour ≠ (start - Hour + loc) / Hour) := by
  have hlast : Truncate (end_ + Hour) Hour ∈ examinedTimes start end_ := by
    rw [mem_examinedTimes]
    simp only [Truncate, Hour_eq] at *
    omega
  refine ⟨mem_examinedTimes start end_, ?_, ?_, ?_, ?_⟩
  · intro x hs he
    obtain ⟨t, ht, hname⟩ := fileName_examined loc start end_ x hs he
    exact List.mem_map.2 ⟨t, ht, hname⟩
  · exact List.mem_map.2 ⟨_, hlast, rfl⟩
  · intro hloc
    refine List.mem_map.2 ⟨_, hlast, ?_⟩
    have hidx : (Truncate (end_ + Hour) Hour + loc) / Hour = (end_ + Hour + loc) / Hour := by
      simp only [Truncate, Hour_eq] at *
      omega
    simp only [fileName, hidx]
  · intro hloc t ht
    rw [mem_examinedTimes] at ht
    simp only [Truncate, Hour_eq] at *
    omega

/-- Witness of C10: the range 13:59:30 to 14:00:30 with local time equal to
UTC. -/
theorem examinedFiles_slack_witness :
    examinedFiles 0 t135930 t140030 =
      ["traffic_2024-01-01_13.json", "traffic_2024-01-01_14.json",
        "traffic_2024-01-01_15.json"] ∧
    fileName 0 (t140030 + Hour) ∈ examinedFiles 0 t135930 t140030 ∧
    (∀ t ∈ examinedTimes t135930 t140030, (t + 0) / Hour ≠ (t135930 - Hour + 0) / Hour) :=
  ⟨by decide,
    (examinedFiles_slack 0 t135930 t140030 (by decide)).2.2.2.1 (by decide),
    (examinedFiles_slack 0 t135930 t140030 (by decide)).2.2.2.2 (by decide)⟩

/-- C10 as stated fails: for the range 13:59:30 to 14:00:30 the bucket of the
hour containing `start - 1h`, the one of 12:00, is not read. -/
theorem examinedFiles_start_counterexample :
    t135930 ≤ t140030 ∧
    fileName 0 (t135930 - Hour) = "traffic_2024-01-01_12.json" ∧
    fileName 0 (t135930 - Hour) ∉ examinedFiles 0 t135930 t140030 := by
  decide

/-! ## capture.go: isLocalIP -/

theorem isLocalIP_of_len (ip : String) (hlen : 3 ≤ ip.utf8ByteSize) :
    isLocalIP ip = some (decide (ip.data.take 3 = "192".data ∨ ip.data.take 3 = "172".data ∨
      ip.data.take 2 = "10".data ∨ ip = "127.0.0.1" ∨ ip = "::1")) := by
  have h0 : 0 < ip.utf8ByteSize := by omega
  have h2 : 2 ≤ ip.utf8ByteSize := by omega
  simp only [isLocalIP, slicePrefixEq, h0, hlen, h2, not_true_eq_false, if_true, if_false]
  by_cases a : ip.data.take 3 = "192".data
  · simp [a]
  · by_cases b : ip.data.take 3 = "172".data
    · simp [a, b]
    · by_cases c : ip.data.take 2 = "10".data
      · simp [a, b, c]
      · simp [a, b, c]

/-- `isLocalIP` panics exactly on the texts of one or two bytes. -/
theorem isLocalIP_none_iff (ip : String) :
    isLocalIP ip = none ↔ ip.utf8ByteSize = 1 ∨ ip.utf8ByteSize = 2 := by
  by_cases h3 : 3 ≤ ip.utf8ByteSize
  · rw [isLocalIP_of_len ip h3]
    constructor
    · intro h
      simp at h
    · intro h
      omega
  · by_cases h0 : 0 < ip.utf8ByteSize
    · simp only [isLocalIP, slicePrefixEq, h0, h3, not_true_eq_false, if_true, if_false]
      constructor
      · intro _
        omega
      · intro _
        trivial
    · simp only [isLocalIP, h0, not_false_eq_true, if_true]
      constructor
      · intro h
        simp at h
      · intro h
        omega

theorem trackConnection_stats (w : CaptureState) (srcIP : String) (srcPort : Nat)
    (dstIP : String) (dstPort : Nat) (protocol : String) (packetLen : Nat) (now0 now1 : Int) :
    (trackConnection w srcIP srcPort dstIP dstPort protocol packetLen now0 now1).stats =
      w.stats := by
  cases h : mapGet w.connections (connKey srcIP srcPort dstIP dstPort protocol) with
  | none =>
    simp only [trackConnection, h]
    split <;> rfl
  | some conn =>
    simp only [trackConnection, h]
    split <;> rfl

/-- C12 (amended): for a destination address text of at least three bytes,
`isLocalIP` returns true exactly when the text is `127.0.0.1` or `::1` or
begins with `10`, `172` or `192`, without a dot after the prefix; the packet is
then counted as incoming, and as outgoing otherwise. -/
theorem isLocalIP_heuristic (ip : String) (hlen : 3 ≤ ip.utf8ByteSize) :
    (∃ b, isLocalIP ip = some b ∧
      (b = true ↔ (ip = "127.0.0.1" ∨ ip = "::1" ∨ "10".data <+: ip.data ∨
        "172".data <+: ip.data ∨ "192".data <+: ip.data))) ∧
    (∀ (w w' : CaptureState) (packet : Packet) (srcIP : String) (now0 now1 : Int),
      (packet.network = .ipv4 srcIP ip ∨ packet.network = .ipv6 srcIP ip) →
      processPacket w packet now0 now1 = some w' →
      ∃ b, isLocalIP ip = some b ∧ w'.stats = countPacket w.stats b packet.length) := by
  constructor
  · refine ⟨_, isLocalIP_of_len ip hlen, ?_⟩
    rw [decide_eq_true_iff]
    simp only [List.prefix_iff_eq_take]
    have e3 : ("192".data).length = 3 := rfl
    have e3' : ("172".data).length = 3 := rfl
    have e2 : ("10".data).length = 2 := rfl
    rw [e3, e3', e2]
    constructor
    · rintro (h | h | h | h | h)
      · exact Or.inr (Or.inr (Or.inr (Or.inr h.symm)))
      · exact Or.inr (Or.inr (Or.inr (Or.inl h.symm)))
      · exact Or.inr (Or.inr (Or.inl h.symm))
      · exact Or.inl h
      · exact Or.inr (Or.inl h)
    · rintro (h | h | h | h | h)
      · exact Or.inr (Or.inr (Or.inr (Or.inl h)))
      · exact Or.inr (Or.inr (Or.inr (Or.inr h)))
      · exact Or.inr (Or.inr (Or.inl h.symm))
      · exact Or.inr (Or.inl h.symm)
      · exact Or.inl h.symm
  · intro w w' packet srcIP now0 now1 hnet hrun
    refine ⟨_, isLocalIP_of_len ip hlen, ?_⟩
    rcases hnet with hnet | hnet
    · simp only [processPacket, hnet, isLocalIP_of_len ip hlen] at hrun
      cases ht : packet.transport with
      | absent => simp only [ht, Option.some.injEq] at hrun; rw [← hrun]
      | other => simp only [ht, Option.some.injEq] at hrun; rw [← hrun]
      | tcp sp dp =>
        simp only [ht, Option.some.injEq] at hrun
        rw [← hrun, trackConnection_stats]
      | udp sp dp =>
        simp only [ht, Option.some.injEq] at hrun
        rw [← hrun, trackConnection_stats]
    · simp only [processPacket, hnet, isLocalIP_of_len ip hlen] at hrun
      cases ht : packet.transport with
      | absent => simp only [ht, Option.some.injEq] at hrun; rw [← hrun]
      | other => simp only [ht, Option.some.injEq] at hrun; rw [← hrun]
      | tcp sp dp =>
        simp only [ht, Option.some.injEq] at hrun
        rw [← hrun, trackConnection_stats]
      | udp sp dp =>
        simp only [ht, Option.some.injEq] at hrun
        rw [← hrun, trackConnection_stats]

/-- Witness of C12: the destination 10.0.0.5 of the scenario packet. -/
theorem isLocalIP_heuristic_witness :
    ∃ b, isLocalIP "10.0.0.5" = some b ∧
      (b = true ↔ ("10.0.0.5" = "127.0.0.1" ∨ "10.0.0.5" = "::1" ∨
        "10".data <+: "10.0.0.5".data ∨ "172".data <+: "10.0.0.5".data ∨
        "192".data <+: "10.0.0.5".data)) :=
  (isLocalIP_heuristic "10.0.0.5" (by decide)).1

/-- C12 as stated fails: the destination 100.64.0.1 is neither a loopback
address nor begins with `10.`, `172.` or `192.`, and `isLocalIP` returns true
for it, since it begins with `10`. -/
theorem isLocalIP_prefix_counterexample :
    isLocalIP "100.64.0.1" = some true ∧
    ¬ ("100.64.0.1" = "127.0.0.1" ∨ "100.64.0.1" = "::1" ∨
        "10.".data <+: "100.64.0.1".data ∨ "172.".data <+: "100.64.0.1".data ∨
        "192.".data <+: "100.64.0.1".data) := by
  decide

/-- C16 fails on the code: the text `::` of the unspecified IPv6 address has
two bytes, so the slice `ip[0:3]` of `isLocalIP` is out of range and the call
panics; `processPacket` panics on a packet with that destination. -/
theorem isLocalIP_unspecified_panics :
    unspecifiedPacket.network = .ipv6 "fe80::1" "::" ∧
    isLocalIP "::" = none ∧
    processPacket (newCaptureState "eth0") unspecifiedPacket 0 0 = none ∧
    runCapture (newCaptureState "eth0") [.packet (tcpPacket 100) 0 0, .tick,
      .packet unspecifiedPacket 1 1, .tick] = none := by
  decide

/-! ## capture.go: the session key -/

theorem digitChar_small : ∀ k, k < 10 →
    (Nat.digitChar k).toNat - 48 = k ∧ 48 ≤ (Nat.digitChar k).toNat ∧
      (Nat.digitChar k).toNat ≤ 57 := by
  decide

theorem digitsValue_append (l : List Char) (c : Char) :
    digitsValue (l ++ [c]) = 10 * digitsValue l + (c.toNat - 48) := by
  simp [digitsValue, List.foldl_append]

theorem toDigitsCore_append (fuel : Nat) : ∀ (n : Nat) (ds : List Char),
    Nat.toDigitsCore 10 fuel n ds = Nat.toDigitsCore 10 fuel n [] ++ ds := by
  induction fuel with
  | zero => intro n ds; simp [Nat.toDigitsCore]
  | succ f ih =>
    intro n ds
    simp only [Nat.toDigitsCore]
    split_ifs with h
    · simp
    · rw [ih (n / 10) (Nat.digitChar (n % 10) :: ds), ih (n / 10) [Nat.digitChar (n % 10)]]
      simp

theorem digitsValue_toDigitsCore (fuel : Nat) : ∀ n, n < fuel →
    digitsValue (Nat.toDigitsCore 10 fuel n []) = n := by
  induction fuel with
  | zero => intro n h; omega
  | succ f ih =>
    intro n hn
    have hd := (digitChar_small (n % 10) (Nat.mod_lt _ (by decide))).1
    simp only [Nat.toDigitsCore]
    split_ifs with h
    · simp only [digitsValue, List.foldl_cons, List.foldl_nil]
      rw [hd]
      omega
    · rw [toDigitsCore_append, digitsValue_append, ih (n / 10) (by omega), hd]
      omega

theorem digitsValue_toDigits (n : Nat) : digitsValue (Nat.toDigits 10 n) = n :=
  digitsValue_toDigitsCore (n + 1) n (by omega)

theorem toDigits_injective (a b : Nat) (h : Nat.toDigits 10 a = Nat.toDigits 10 b) : a = b := by
  rw [← digitsValue_toDigits a, h, digitsValue_toDigits]

theorem toDigitsCore_digits (fuel : Nat) : ∀ n, ∀ c ∈ Nat.toDigitsCore 10 fuel n [],
    48 ≤ c.toNat ∧ c.toNat ≤ 57 := by
  induction fuel with
  | zero => intro n c hc; simp [Nat.toDigitsCore] at hc
  | succ f ih =>
    intro n c hc
    have hd := (digitChar_small (n % 10) (Nat.mod_lt _ (by decide))).2
    simp only [Nat.toDigitsCore] at hc
    split_ifs at hc with h
    · simp only [List.mem_singleton] at hc
      rw [hc]; exact hd
    · rw [toDigitsCore_append] at hc
      rcases List.mem_append.1 hc with h1 | h1
      · exact ih _ c h1
      · simp only [List.mem_singleton] at h1
        rw [h1]; exact hd

theorem toDigits_digits (n : Nat) : ∀ c ∈ Nat.toDigits 10 n, 48 ≤ c.toNat ∧ c.toNat ≤ 57 :=
  toDigitsCore_digits (n + 1) n

theorem split_first {α : Type} (x : α) : ∀ (a a' b b' : List α), x ∉ a → x ∉ a' →
    a ++ x :: b = a' ++ x :: b' → a = a' ∧ b = b' := by
  intro a
  induction a with
  | nil =>
    intro a' b b' _ ha' h
    cases a' with
    | nil => exact ⟨rfl, by simpa using h⟩
    | cons y ys =>
      simp only [List.nil_append, List.cons_append, List.cons.injEq] at h
      exact absurd (h.1 ▸ List.mem_cons_self _ _) ha'
  | cons z zs ih =>
    intro a' b b' ha ha' h
    cases a' with
    | nil =>
      simp only [List.nil_append, List.cons_append, List.cons.injEq] at h
      exact absurd (h.1 ▸ List.mem_cons_self _ _) ha
    | cons y ys =>
      simp only [List.cons_append, List.cons.injEq] at h
      obtain ⟨h1, h2⟩ := ih ys b b' (fun hm => ha (List.mem_cons_of_mem _ hm))
        (fun hm => ha' (List.mem_cons_of_mem _ hm)) h.2
      exact ⟨by rw [h.1, h1], h2⟩

theorem split_last {α : Type} (x : α) (a a' b b' : List α) (hb : x ∉ b) (hb' : x ∉ b')
    (h : a ++ x :: b = a' ++ x :: b') : a = a' ∧ b = b' := by
  have hr : b.reverse ++ x :: a.reverse = b'.reverse ++ x :: a'.reverse := by
    have := congrArg List.reverse h
    simpa using this
  obtain ⟨h1, h2⟩ := split_first x _ _ _ _ (by simpa using hb) (by simpa using hb') hr
  exact ⟨List.reverse_injective h2, List.reverse_injective h1⟩

theorem connKey_data (s : String) (p : Nat) (d : String) (q : Nat) (pr : String) :
    (connKey s p d q pr).data =
      (s.data ++ ':' :: Nat.toDigits 10 p) ++
        '-' :: ((d.data ++ ':' :: Nat.toDigits 10 q) ++ '-' :: pr.data) := by
  simp [connKey, String.data_append]


theorem dash_not_mem_toDigits (n : Nat) : '-' ∉ Nat.toDigits 10 n := by
  intro h
  have := toDigits_digits n '-' h
  have e : ('-' : Char).toNat = 45 := rfl
  omega

theorem colon_not_mem_toDigits (n : Nat) : ':' ∉ Nat.toDigits 10 n := by
  intro h
  have := toDigits_digits n ':' h
  have e : (':' : Char).toNat = 58 := rfl
  omega

theorem connKey_injective (s1 s2 d1 d2 : String) (p1 p2 q1 q2 : Nat) (pr1 pr2 : String)
    (hs1 : '-' ∉ s1.data) (hs2 : '-' ∉ s2.data) (hd1 : '-' ∉ d1.data) (hd2 : '-' ∉ d2.data) :
    connKey s1 p1 d1 q1 pr1 = connKey s2 p2 d2 q2 pr2 ↔
      (s1 = s2 ∧ p1 = p2 ∧ d1 = d2 ∧ q1 = q2 ∧ pr1 = pr2) := by
  constructor
  · intro h
    have hdata := congrArg String.data h
    rw [connKey_data, connKey_data] at hdata
    have nd : ∀ (s : String) (p : Nat), '-' ∉ s.data → '-' ∉ s.data ++ ':' :: Nat.toDigits 10 p := by
      intro s p hs hm
      rcases List.mem_append.1 hm with h1 | h1
      · exact hs h1
      · rcases List.mem_cons.1 h1 with h2 | h2
        · exact absurd h2 (by decide)
        · exact dash_not_mem_toDigits p h2
    obtain ⟨hA, hB⟩ := split_first '-' _ _ _ _ (nd s1 p1 hs1) (nd s2 p2 hs2) hdata
    obtain ⟨hC, hD⟩ := split_first '-' _ _ _ _ (nd d1 q1 hd1) (nd d2 q2 hd2) hB
    obtain ⟨hs, hp⟩ := split_last ':' _ _ _ _ (colon_not_mem_toDigits p1)
      (colon_not_mem_toDigits p2) hA
    obtain ⟨hd, hq⟩ := split_last ':' _ _ _ _ (colon_not_mem_toDigits q1)
      (colon_not_mem_toDigits q2) hC
    exact ⟨String.ext hs, toDigits_injective _ _ hp, String.ext hd, toDigits_injective _ _ hq,
      String.ext hD⟩
  · rintro ⟨h1, h2, h3, h4, h5⟩
    rw [h1, h2, h3, h4, h5]

theorem trackConnection_connections (w : CaptureState) (srcIP : String) (srcPort : Nat)
    (dstIP : String) (dstPort : Nat) (protocol : String) (packetLen : Nat) (now0 now1 : Int) :
    (mapGet (trackConnection w srcIP srcPort dstIP dstPort protocol packetLen now0 now1).connections
        (connKey srcIP srcPort dstIP dstPort protocol)).isSome = true ∧
    ∀ k, k ≠ connKey srcIP srcPort dstIP dstPort protocol →
      mapGet (trackConnection w srcIP srcPort dstIP dstPort protocol packetLen now0 now1).connections
        k = mapGet w.connections k := by
  cases h : mapGet w.connections (connKey srcIP srcPort dstIP dstPort protocol) with
  | none =>
    simp only [trackConnection, h]
    split
    · exact ⟨by simp [mapGet_mapSet_self], fun k hk => mapGet_mapSet_other _ _ _ _ hk⟩
    · exact ⟨by simp [mapGet_mapSet_self], fun k hk => mapGet_mapSet_other _ _ _ _ hk⟩
  | some conn =>
    simp only [trackConnection, h]
    split
    · exact ⟨by simp [h], fun k _ => rfl⟩
    · exact ⟨by simp [h], fun k _ => rfl⟩

theorem processPacket_of_fiveTuple (w w' : CaptureState) (packet : Packet) (now0 now1 : Int)
    (srcIP : String) (srcPort : Nat) (dstIP : String) (dstPort : Nat) (protocol : String)
    (ht : fiveTuple packet = some (srcIP, srcPort, dstIP, dstPort, protocol))
    (hrun : processPacket w packet now0 now1 = some w') :
    ∃ b, isLocalIP dstIP = some b ∧
      w' = trackConnection { w with stats := countPacket w.stats b packet.length }
        srcIP srcPort dstIP dstPort protocol packet.length now0 now1 := by
  cases hn : packet.network with
  | absent => simp [fiveTuple, hn] at ht
  | other => simp [fiveTuple, hn] at ht
  | ipv4 s d =>
    cases htr : packet.transport with
    | absent => simp [fiveTuple, hn, htr] at ht
    | other => simp [fiveTuple, hn, htr] at ht
    | tcp sp dp =>
      simp only [fiveTuple, hn, htr, Option.some.injEq, Prod.mk.injEq] at ht
      obtain ⟨rfl, rfl, rfl, rfl, rfl⟩ := ht
      cases hl : isLocalIP d with
      | none => simp [processPacket, hn, hl] at hrun
      | some b =>
        simp only [processPacket, hn, hl, htr, Option.some.injEq] at hrun
        exact ⟨b, rfl, hrun.symm⟩
    | udp sp dp =>
      simp only [fiveTuple, hn, htr, Option.some.injEq, Prod.mk.injEq] at ht
      obtain ⟨rfl, rfl, rfl, rfl, rfl⟩ := ht
      cases hl : isLocalIP d with
      | none => simp [processPacket, hn, hl] at hrun
      | some b =>
        simp only [processPacket, hn, hl, htr, Option.some.injEq] at hrun
        exact ⟨b, rfl, hrun.symm⟩
  | ipv6 s d =>
    cases htr : packet.transport with
    | absent => simp [fiveTuple, hn, htr] at ht
    | other => simp [fiveTuple, hn, htr] at ht
    | tcp sp dp =>
      simp only [fiveTuple, hn, htr, Option.some.injEq, Prod.mk.injEq] at ht
      obtain ⟨rfl, rfl, rfl, rfl, rfl⟩ := ht
      cases hl : isLocalIP d with
      | none => simp [processPacket, hn, hl] at hrun
      | some b =>
        simp only [processPacket, hn, hl, htr, Option.some.injEq] at hrun
        exact ⟨b, rfl, hrun.symm⟩
    | udp sp dp =>
      simp only [fiveTuple, hn, htr, Option.some.injEq, Prod.mk.injEq] at ht
      obtain ⟨rfl, rfl, rfl, rfl, rfl⟩ := ht
      cases hl : isLocalIP d with
      | none => simp [processPacket, hn, hl] at hrun
      | some b =>
        simp only [processPacket, hn, hl, htr, Option.some.injEq] at hrun
        exact ⟨b, rfl, hrun.symm⟩


/-- C17: the session key of `processPacket` is a function of the 5-tuple and,
for packets whose address texts contain no `-`, two packets have the same key
exactly when their 5-tuples are identical. For each of them `processPacket`
touches the session entry under its key and no other, and the two directions of a connection
between different endpoints have different keys. -/
theorem processPacket_key_injective (a b : Packet) (sa da sb db : String)
    (pa qa pb qb : Nat) (pra prb : String)
    (ha : fiveTuple a = some (sa, pa, da, qa, pra))
    (hb : fiveTuple b = some (sb, pb, db, qb, prb))
    (hsa : '-' ∉ sa.data) (hda : '-' ∉ da.data) (hsb : '-' ∉ sb.data) (hdb : '-' ∉ db.data) :
    (connKey sa pa da qa pra = connKey sb pb db qb prb ↔
      (sa, pa, da, qa, pra) = (sb, pb, db, qb, prb)) ∧
    (∀ (w w' : CaptureState) (now0 now1 : Int), processPacket w a now0 now1 = some w' →
      (mapGet w'.connections (connKey sa pa da qa pra)).isSome = true ∧
      ∀ k, k ≠ connKey sa pa da qa pra → mapGet w'.connections k = mapGet w.connections k) ∧
    (∀ (w w' : CaptureState) (now0 now1 : Int), processPacket w b now0 now1 = some w' →
      (mapGet w'.connections (connKey sb pb db qb prb)).isSome = true ∧
      ∀ k, k ≠ connKey sb pb db qb prb → mapGet w'.connections k = mapGet w.connections k) ∧
    ((sa, pa) ≠ (da, qa) → connKey sa pa da qa pra ≠ connKey da qa sa pa pra) := by
  refine ⟨?_, ?_, ?_, ?_⟩
  · rw [connKey_injective sa sb da db pa pb qa qb pra prb hsa hsb hda hdb]
    simp only [Prod.mk.injEq]
  · intro w w' now0 now1 hrun
    obtain ⟨_, _, hw⟩ := processPacket_of_fiveTuple w w' a now0 now1 _ _ _ _ _ ha hrun
    rw [hw]
    exact trackConnection_connections _ _ _ _ _ _ _ _ _
  · intro w w' now0 now1 hrun
    obtain ⟨_, _, hw⟩ := processPacket_of_fiveTuple w w' b now0 now1 _ _ _ _ _ hb hrun
    rw [hw]
    exact trackConnection_connections _ _ _ _ _ _ _ _ _
  · intro hne heq
    rw [connKey_injective sa da da sa pa qa qa pa pra pra hsa hda hda hsa] at heq
    exact hne (by rw [heq.1, heq.2.1])

/-- Witness of C17: the scenario packet and its reply. -/
theorem processPacket_key_injective_witness :
    connKey "1.2.3.4" 1111 "10.0.0.5" 80 "TCP" ≠ connKey "10.0.0.5" 80 "1.2.3.4" 1111 "TCP" ∧
    (connKey "1.2.3.4" 1111 "10.0.0.5" 80 "TCP" = connKey "10.0.0.5" 80 "1.2.3.4" 1111 "TCP" ↔
      ("1.2.3.4", 1111, "10.0.0.5", 80, "TCP") = ("10.0.0.5", 80, "1.2.3.4", 1111, "TCP")) :=
  ⟨(processPacket_key_injective (tcpPacket 100) (tcpReply 100) "1.2.3.4" "10.0.0.5" "10.0.0.5"
      "1.2.3.4" 1111 80 80 1111 "TCP" "TCP" rfl rfl (by decide) (by decide) (by decide)
      (by decide)).2.2.2 (by decide),
    (processPacket_key_injective (tcpPacket 100) (tcpReply 100) "1.2.3.4" "10.0.0.5" "10.0.0.5"
      "1.2.3.4" 1111 80 80 1111 "TCP" "TCP" rfl rfl (by decide) (by decide) (by decide)
      (by decide)).1⟩

/-! ## capture.go: accumulation -/

theorem flush_singleFlow (w : CaptureState) (c : Connection) (key : String) (stored : Bool)
    (h : SingleFlow w c key stored) :
    ∃ c', SingleFlow (flush w) c' key true ∧ c'.SrcIP = c.SrcIP ∧ c'.SrcPort = c.SrcPort ∧
      c'.DstIP = c.DstIP ∧ c'.DstPort = c.DstPort ∧ c'.Protocol = c.Protocol ∧
      c'.Bytes = c.Bytes ∧ c'.Packets = c.Packets := by
  obtain ⟨ho, hc, hs⟩ := h
  cases stored with
  | false =>
    refine ⟨c, ?_, rfl, rfl, rfl, rfl, rfl, rfl, rfl⟩
    simp only [Bool.false_eq_true, if_false] at hs
    simp [SingleFlow, flush, flushConnections, UpdateConnectionRef, ho, hc, hs, mapGet, mapSet]
  | true =>
    simp only [if_true] at hs
    refine ⟨{ c with BytesPerSec := (c.BytesPerSec + c.BytesPerSec) % uint64Size / 2 },
      ?_, rfl, rfl, rfl, rfl, rfl, rfl, rfl⟩
    simp [SingleFlow, flush, flushConnections, UpdateConnectionRef, assignThrough, ho, hc, hs,
      mapGet, connectionKey]

theorem trackConnection_singleFlow (w : CaptureState) (c : Connection) (stored : Bool)
    (packetLen : Nat) (now0 now1 : Int)
    (h : SingleFlow w c (connKey c.SrcIP c.SrcPort c.DstIP c.DstPort c.Protocol) stored)
    (hb : c.Bytes + packetLen < uint64Size) (hp : c.Packets + 1 < uint64Size) :
    ∃ c', SingleFlow (trackConnection w c.SrcIP c.SrcPort c.DstIP c.DstPort c.Protocol packetLen
        now0 now1) c' (connKey c.SrcIP c.SrcPort c.DstIP c.DstPort c.Protocol) stored ∧
      c'.SrcIP = c.SrcIP ∧ c'.SrcPort = c.SrcPort ∧
      c'.DstIP = c.DstIP ∧ c'.DstPort = c.DstPort ∧ c'.Protocol = c.Protocol ∧
      c'.Bytes = c.Bytes + packetLen ∧ c'.Packets = c.Packets + 1 := by
  obtain ⟨ho, hc, hs⟩ := h
  have hl : packetLen % uint64Size = packetLen := Nat.mod_eq_of_lt (by omega)
  refine ⟨{ c with
      Bytes := c.Bytes + packetLen
      BytesPerSec := packetLen
      Packets := c.Packets + 1
      LastSeen := now1 }, ?_, rfl, rfl, rfl, rfl, rfl, rfl, rfl⟩
  have e0 : ([c] : List Connection)[0]? = some c := rfl
  simp only [SingleFlow, trackConnection, hc, mapGet, if_true, ho, e0]
  refine ⟨?_, trivial, ?_⟩
  · simp [hl, Nat.mod_eq_of_lt hb, Nat.mod_eq_of_lt hp]
  · simpa [connectionKey] using hs


theorem runCapture_append (a b : List Event) : ∀ w : CaptureState,
    runCapture w (a ++ b) = (runCapture w a).bind (fun w1 => runCapture w1 b) := by
  induction a with
  | nil => intro w; rfl
  | cons e rest ih =>
    intro w
    cases e with
    | tick =>
      show runCapture (flush w) (rest ++ b) = _
      rw [ih]
      rfl
    | packet p n0 n1 =>
      show (match processPacket w p n0 n1 with
        | none => none
        | some w1 => runCapture w1 (rest ++ b)) = _
      simp only [runCapture]
      cases processPacket w p n0 n1 with
      | none => rfl
      | some w1 => exact ih w1

theorem runCapture_singleFlow (srcIP : String) (srcPort : Nat) (dstIP : String) (dstPort : Nat)
    (protocol : String) :
    ∀ (evs : List Event) (w : CaptureState) (c : Connection) (stored : Bool),
      SingleFlow w c (connKey srcIP srcPort dstIP dstPort protocol) stored →
      (c.SrcIP = srcIP ∧ c.SrcPort = srcPort ∧ c.DstIP = dstIP ∧ c.DstPort = dstPort ∧
        c.Protocol = protocol) →
      (∀ p n0 n1, Event.packet p n0 n1 ∈ evs →
        fiveTuple p = some (srcIP, srcPort, dstIP, dstPort, protocol)) →
      c.Bytes + packetBytes evs < uint64Size → c.Packets + packetCount evs < uint64Size →
      ∀ w', runCapture w evs = some w' →
        ∃ c' stored', SingleFlow w' c' (connKey srcIP srcPort dstIP dstPort protocol) stored' ∧
          (c'.SrcIP = srcIP ∧ c'.SrcPort = srcPort ∧ c'.DstIP = dstIP ∧ c'.DstPort = dstPort ∧
            c'.Protocol = protocol) ∧
          c'.Bytes = c.Bytes + packetBytes evs ∧ c'.Packets = c.Packets + packetCount evs := by
  intro evs
  induction evs with
  | nil =>
    intro w c stored hsf hf _ _ _ w' hrun
    simp only [runCapture, Option.some.injEq] at hrun
    subst hrun
    exact ⟨c, stored, hsf, hf, by simp [packetBytes], by simp [packetCount]⟩
  | cons e rest ih =>
    intro w c stored hsf hf hall hb hp w' hrun
    cases e with
    | tick =>
      simp only [runCapture] at hrun
      obtain ⟨c1, hsf1, h1, h2, h3, h4, h5, h6, h7⟩ := flush_singleFlow w c _ stored hsf
      have hf1 : c1.SrcIP = srcIP ∧ c1.SrcPort = srcPort ∧ c1.DstIP = dstIP ∧
          c1.DstPort = dstPort ∧ c1.Protocol = protocol := by
        rw [h1, h2, h3, h4, h5]; exact hf
      simp only [packetBytes, packetCount] at hb hp ⊢
      rw [← h6, ← h7]
      exact ih (flush w) c1 true hsf1 hf1
        (fun p n0 n1 hm => hall p n0 n1 (List.mem_cons_of_mem _ hm))
        (by rw [h6]; exact hb) (by rw [h7]; exact hp) w' hrun
    | packet p n0 n1 =>
      simp only [runCapture] at hrun
      cases hproc : processPacket w p n0 n1 with
      | none => simp [hproc] at hrun
      | some w1 =>
        simp only [hproc] at hrun
        obtain ⟨b, _, hw1⟩ := processPacket_of_fiveTuple w w1 p n0 n1 _ _ _ _ _
          (hall p n0 n1 (List.mem_cons_self _ _)) hproc
        simp only [packetBytes, packetCount] at hb hp ⊢
        obtain ⟨e1, e2, e3, e4, e5⟩ := hf
        have hsf0 : SingleFlow { w with stats := countPacket w.stats b p.length } c
            (connKey c.SrcIP c.SrcPort c.DstIP c.DstPort c.Protocol) stored := by
          rw [e1, e2, e3, e4, e5]; exact hsf
        obtain ⟨c1, hsf1, h1, h2, h3, h4, h5, h6, h7⟩ :=
          trackConnection_singleFlow _ c stored p.length n0 n1 hsf0 (by omega) (by omega)
        rw [e1, e2, e3, e4, e5, ← hw1] at hsf1
        have hf1 : c1.SrcIP = srcIP ∧ c1.SrcPort = srcPort ∧ c1.DstIP = dstIP ∧
            c1.DstPort = dstPort ∧ c1.Protocol = protocol := by
          rw [h1, h2, h3, h4, h5]; exact ⟨e1, e2, e3, e4, e5⟩
        obtain ⟨c2, st2, hsf2, hf2, hb2, hp2⟩ := ih w1 c1 stored hsf1 hf1
          (fun q m0 m1 hm => hall q m0 m1 (List.mem_cons_of_mem _ hm))
          (by rw [h6]; omega) (by rw [h7]; omega) w' hrun
        exact ⟨c2, st2, hsf2, hf2, by rw [hb2, h6]; omega, by rw [hp2, h7]; omega⟩

theorem runCapture_fresh (srcIP : String) (srcPort : Nat) (dstIP : String) (dstPort : Nat)
    (protocol : String) :
    ∀ (evs : List Event) (w : CaptureState),
      w.objects = [] → w.connections = [] → w.storeConnections = [] →
      (∀ p n0 n1, Event.packet p n0 n1 ∈ evs →
        fiveTuple p = some (srcIP, srcPort, dstIP, dstPort, protocol)) →
      packetBytes evs < uint64Size → packetCount evs < uint64Size →
      0 < packetCount evs →
      ∀ w', runCapture w evs = some w' →
        ∃ c' stored', SingleFlow w' c' (connKey srcIP srcPort dstIP dstPort protocol) stored' ∧
          (c'.SrcIP = srcIP ∧ c'.SrcPort = srcPort ∧ c'.DstIP = dstIP ∧ c'.DstPort = dstPort ∧
            c'.Protocol = protocol) ∧
          c'.Bytes = packetBytes evs ∧ c'.Packets = packetCount evs := by
  intro evs
  induction evs with
  | nil =>
    intro w _ _ _ _ _ _ hpos
    simp [packetCount] at hpos
  | cons e rest ih =>
    intro w ho hc hs hall hb hp hpos w' hrun
    cases e with
    | tick =>
      simp only [runCapture] at hrun
      simp only [packetBytes, packetCount] at hb hp hpos ⊢
      refine ih (flush w) ?_ ?_ ?_
        (fun p n0 n1 hm => hall p n0 n1 (List.mem_cons_of_mem _ hm)) hb hp hpos w' hrun
      · simp [flush, flushConnections, hc, ho]
      · simp [flush, flushConnections, hc]
      · simp [flush, flushConnections, hc, hs]
    | packet p n0 n1 =>
      simp only [runCapture] at hrun
      cases hproc : processPacket w p n0 n1 with
      | none => simp [hproc] at hrun
      | some w1 =>
        simp only [hproc] at hrun
        obtain ⟨b, _, hw1⟩ := processPacket_of_fiveTuple w w1 p n0 n1 _ _ _ _ _
          (hall p n0 n1 (List.mem_cons_self _ _)) hproc
        simp only [packetBytes, packetCount] at hb hp ⊢
        have hl : p.length % uint64Size = p.length := Nat.mod_eq_of_lt (by omega)
        have h1 : (1 : Nat) % uint64Size = 1 := by decide
        have hsf1 : SingleFlow w1
            { SrcIP := srcIP, SrcPort := srcPort, DstIP := dstIP, DstPort := dstPort
              Protocol := protocol, Bytes := p.length, BytesPerSec := p.length, Packets := 1
              StartTime := n0, LastSeen := n1 }
            (connKey srcIP srcPort dstIP dstPort protocol) false := by
          rw [hw1]
          simp [SingleFlow, trackConnection, hc, ho, hs, mapGet, mapSet, hl, h1]
        obtain ⟨c2, st2, hsf2, hf2, hb2, hp2⟩ :=
          runCapture_singleFlow srcIP srcPort dstIP dstPort protocol rest w1 _ false hsf1
            ⟨rfl, rfl, rfl, rfl, rfl⟩
            (fun q m0 m1 hm => hall q m0 m1 (List.mem_cons_of_mem _ hm))
            (by simpa using hb) (by simpa using hp) w' hrun
        exact ⟨c2, st2, hsf2, hf2, by simpa using hb2, by simpa using hp2⟩

theorem runCapture_total (srcIP : String) (srcPort : Nat) (dstIP : String) (dstPort : Nat)
    (protocol : String) (hlocal : (isLocalIP dstIP).isSome = true) :
    ∀ (evs : List Event) (w : CaptureState),
      (∀ p n0 n1, Event.packet p n0 n1 ∈ evs →
        fiveTuple p = some (srcIP, srcPort, dstIP, dstPort, protocol)) →
      ∃ w', runCapture w evs = some w' := by
  intro evs
  induction evs with
  | nil => intro w _; exact ⟨w, rfl⟩
  | cons e rest ih =>
    intro w hall
    cases e with
    | tick =>
      simp only [runCapture]
      exact ih (flush w) (fun p n0 n1 hm => hall p n0 n1 (List.mem_cons_of_mem _ hm))
    | packet p n0 n1 =>
      have ht := hall p n0 n1 (List.mem_cons_self _ _)
      obtain ⟨b, hb⟩ := Option.isSome_iff_exists.1 hlocal
      have hsome : ∃ w1, processPacket w p n0 n1 = some w1 := by
        cases hn : p.network with
        | absent => simp [fiveTuple, hn] at ht
        | other => simp [fiveTuple, hn] at ht
        | ipv4 s d =>
          cases htr : p.transport with
          | absent => simp [fiveTuple, hn, htr] at ht
          | other => simp [fiveTuple, hn, htr] at ht
          | tcp sp dp =>
            simp only [fiveTuple, hn, htr, Option.some.injEq, Prod.mk.injEq] at ht
            obtain ⟨_, _, rfl, _, _⟩ := ht
            simp [processPacket, hn, htr, hb]
          | udp sp dp =>
            simp only [fiveTuple, hn, htr, Option.some.injEq, Prod.mk.injEq] at ht
            obtain ⟨_, _, rfl, _, _⟩ := ht
            simp [processPacket, hn, htr, hb]
        | ipv6 s d =>
          cases htr : p.transport with
          | absent => simp [fiveTuple, hn, htr] at ht
          | other => simp [fiveTuple, hn, htr] at ht
          | tcp sp dp =>
            simp only [fiveTuple, hn, htr, Option.some.injEq, Prod.mk.injEq] at ht
            obtain ⟨_, _, rfl, _, _⟩ := ht
            simp [processPacket, hn, htr, hb]
          | udp sp dp =>
            simp only [fiveTuple, hn, htr, Option.some.injEq, Prod.mk.injEq] at ht
            obtain ⟨_, _, rfl, _, _⟩ := ht
            simp [processPacket, hn, htr, hb]
      obtain ⟨w1, hw1⟩ := hsome
      simp only [runCapture, hw1]
      exact ih w1 (fun q m0 m1 hm => hall q m0 m1 (List.mem_cons_of_mem _ hm))

/-- C13: from a fresh session over an empty store, after any events whose
packets all carry one TCP or UDP 5-tuple, at least one packet among them, a
tick leaves the store with one connection, the one of that 5-tuple, whose
`Bytes` is the sum of the lengths of the packets so far and whose `Packets` is
their count, provided neither exceeds 64 bits. The run reaches that tick
whenever `isLocalIP` does not panic on the destination. -/
theorem capture_accumulates (iface srcIP : String) (srcPort : Nat) (dstIP : String)
    (dstPort : Nat) (protocol : String) (evs : List Event)
    (hall : ∀ p n0 n1, Event.packet p n0 n1 ∈ evs →
      fiveTuple p = some (srcIP, srcPort, dstIP, dstPort, protocol))
    (hpos : 0 < packetCount evs)
    (hbytes : packetBytes evs < uint64Size) (hcount : packetCount evs < uint64Size) :
    (∀ w, runCapture (newCaptureState iface) (evs ++ [Event.tick]) = some w →
      ∃ c, w.store.connections = [(connectionKey c, c)] ∧
        c.SrcIP = srcIP ∧ c.SrcPort = srcPort ∧ c.DstIP = dstIP ∧ c.DstPort = dstPort ∧
        c.Protocol = protocol ∧
        c.Bytes = packetBytes evs ∧ c.Packets = packetCount evs) ∧
    ((isLocalIP dstIP).isSome = true →
      ∃ w, runCapture (newCaptureState iface) (evs ++ [Event.tick]) = some w) := by
  constructor
  · intro w hrun
    rw [runCapture_append] at hrun
    cases hmid : runCapture (newCaptureState iface) evs with
    | none => simp [hmid] at hrun
    | some wm =>
      simp only [hmid, Option.bind, runCapture, Option.some.injEq] at hrun
      obtain ⟨c1, st1, hsf1, hf1, hb1, hp1⟩ :=
        runCapture_fresh srcIP srcPort dstIP dstPort protocol evs (newCaptureState iface)
          rfl rfl rfl hall hbytes hcount hpos wm hmid
      obtain ⟨c2, hsf2, h1, h2, h3, h4, h5, h6, h7⟩ := flush_singleFlow wm c1 _ st1 hsf1
      obtain ⟨e1, e2, e3, e4, e5⟩ := hf1
      refine ⟨c2, ?_, by rw [h1, e1], by rw [h2, e2], by rw [h3, e3], by rw [h4, e4],
        by rw [h5, e5], by rw [h6, hb1], by rw [h7, hp1]⟩
      rw [← hrun]
      obtain ⟨ho, _, hs⟩ := hsf2
      simp [CaptureState.store, ho, hs]
  · intro hlocal
    exact runCapture_total srcIP srcPort dstIP dstPort protocol hlocal _ _ (by
      intro p n0 n1 hm
      rcases List.mem_append.1 hm with h | h
      · exact hall p n0 n1 h
      · simp at h)

/-- Witness of C13: packets of 100 and 200 bytes with a tick after each. -/
theorem capture_accumulates_witness :
    packetBytes twoPacketEvents = 300 ∧ packetCount twoPacketEvents = 2 ∧
    ∃ w, runCapture (newCaptureState "eth0") (twoPacketEvents ++ [Event.tick]) = some w ∧
      ∃ c, w.store.connections = [(connectionKey c, c)] ∧
        c.SrcIP = "1.2.3.4" ∧ c.SrcPort = 1111 ∧ c.DstIP = "10.0.0.5" ∧ c.DstPort = 80 ∧
        c.Protocol = "TCP" ∧
        c.Bytes = packetBytes twoPacketEvents ∧ c.Packets = packetCount twoPacketEvents := by
  have hall : ∀ p n0 n1, Event.packet p n0 n1 ∈ twoPacketEvents →
      fiveTuple p = some ("1.2.3.4", 1111, "10.0.0.5", 80, "TCP") := by
    intro p n0 n1 hm
    simp only [twoPacketEvents, List.mem_cons, Event.packet.injEq, List.mem_singleton,
      reduceCtorEq, false_or, List.not_mem_nil, or_false] at hm
    rcases hm with ⟨rfl, _, _⟩ | ⟨rfl, _, _⟩ <;> rfl
  have h := capture_accumulates "eth0" "1.2.3.4" 1111 "10.0.0.5" 80 "TCP" twoPacketEvents hall
    (by decide) (by decide) (by decide)
  obtain ⟨w, hw⟩ := h.2 (by decide)
  exact ⟨by decide, by decide, w, hw, h.1 w hw⟩

/-! ## manager.go -/

theorem NewPacketCapture_handle (pcap : Pcap) (handle : Nat) (iface : String) :
    NewPacketCapture pcap handle iface =
      match NewPacketCapture pcap 0 iface with
      | .ok capture => .ok { capture with handle := handle }
      | .error e => .error e := by
  unfold NewPacketCapture
  by_cases hi : iface = ""
  · simp only [hi, if_true]
    cases pcap.FindAllDevs with
    | none => rfl
    | some devices =>
      by_cases hl : devices.length = 0
      · simp only [hl, if_true]
      · simp only [hl, if_false]
        cases pcap.OpenLive (firstDevice devices "") <;> rfl
  · simp only [hi, if_false]
    cases pcap.OpenLive iface <;> rfl

theorem NewPacketCapture_iface (pcap : Pcap) (handle : Nat) (iface : String)
    (capture : PacketCapture) (h : NewPacketCapture pcap handle iface = .ok capture)
    (hne : iface ≠ "") : capture.iface = iface := by
  unfold NewPacketCapture at h
  simp only [hne, if_false] at h
  by_cases ho : pcap.OpenLive iface = true
  · simp only [ho, if_true, Except.ok.injEq] at h
    rw [← h]
  · simp only [ho, if_false] at h
    cases h

theorem NewPacketCapture_cases (pcap : Pcap) (handle : Nat) (iface : String) :
    (opens pcap iface = true ∧ ∃ capture, NewPacketCapture pcap handle iface = .ok capture ∧
      capture.handle = handle ∧ (iface ≠ "" → capture.iface = iface)) ∨
    (opens pcap iface = false ∧ ∃ e, NewPacketCapture pcap handle iface = .error e) := by
  have hh := NewPacketCapture_handle pcap handle iface
  unfold opens
  cases h0 : NewPacketCapture pcap 0 iface with
  | error e =>
    rw [h0] at hh
    exact Or.inr ⟨rfl, e, hh⟩
  | ok capture =>
    rw [h0] at hh
    exact Or.inl ⟨rfl, _, hh, rfl, fun hne => NewPacketCapture_iface pcap handle iface _ hh hne⟩

theorem stopCapture_running (m : Manager) (h : m.captureRunning = true) :
    stopCapture m =
      (none,
        { m with
          cancelled := match m.cancel with
            | some n => n :: m.cancelled
            | none => m.cancelled
          closed := match m.currentCapture with
            | some capture => capture.handle :: m.closed
            | none => m.closed
          currentCapture := none
          captureRunning := false }) := by
  obtain ⟨cc, ci, st, cx, cn, cr, cd, cl, la, fi, nx⟩ := m
  simp only at h
  subst h
  cases cn <;> cases cc <;> rfl

theorem stopCapture_idle (m : Manager) (h : m.captureRunning = false) :
    stopCapture m = (none, m) := by
  simp [stopCapture, h]

theorem Start_ok (m : Manager) (pcap : Pcap) (iface : String) (capturer : PacketCapture)
    (h : NewPacketCapture pcap m.nextId iface = .ok capturer) :
    Start m pcap iface =
      (none,
        { (stopCapture m).2 with
          storage := ClearConnections m.storage
          currentCapture := some capturer
          currentIface := iface
          ctx := some m.nextId
          cancel := some m.nextId
          captureRunning := true
          launched := capturer :: m.launched
          nextId := m.nextId + 1 }) := by
  obtain ⟨cc, ci, st, cx, cn, cr, cd, cl, la, fi, nx⟩ := m
  simp only at h
  cases cr
  · simp [Start, stopCapture, h]
  · cases cn <;> cases cc <;> simp [Start, stopCapture, h]

theorem Start_error (m : Manager) (pcap : Pcap) (iface : String) (e : String)
    (h : NewPacketCapture pcap m.nextId iface = .error e) :
    Start m pcap iface =
      (some ("failed to create packet capture: " ++ e),
        { (stopCapture m).2 with storage := ClearConnections m.storage }) := by
  obtain ⟨cc, ci, st, cx, cn, cr, cd, cl, la, fi, nx⟩ := m
  simp only at h
  cases cr
  · simp [Start, stopCapture, h]
  · cases cn <;> cases cc <;> simp [Start, stopCapture, h]

theorem stopCapture_currentIface (m : Manager) :
    (stopCapture m).2.currentIface = m.currentIface := by
  cases hr : m.captureRunning with
  | false => rw [stopCapture_idle m hr]
  | true => rw [stopCapture_running m hr]

theorem Start_currentIface (m : Manager) (pcap : Pcap) (iface : String) :
    (Start m pcap iface).2.currentIface = if opens pcap iface then iface else m.currentIface := by
  rcases NewPacketCapture_cases pcap m.nextId iface with ⟨ho, c, hc, _⟩ | ⟨ho, e, he⟩
  · rw [Start_ok m pcap iface c hc, ho]
    rfl
  · rw [Start_error m pcap iface e he, ho]
    exact stopCapture_currentIface m

theorem stopCapture_inv (m : Manager) (h : ManagerInv m) : ManagerInv (stopCapture m).2 := by
  cases hr : m.captureRunning with
  | false => rw [stopCapture_idle m hr]; exact h
  | true =>
    rw [stopCapture_running m hr]
    exact ⟨fun hf => by simp at hf, fun c hc => by simp at hc⟩

theorem Start_inv (m : Manager) (pcap : Pcap) (iface : String) (h : ManagerInv m) :
    ManagerInv (Start m pcap iface).2 := by
  rcases NewPacketCapture_cases pcap m.nextId iface with ⟨_, c, hc, _, hci⟩ | ⟨_, e, he⟩
  · rw [Start_ok m pcap iface c hc]
    refine ⟨fun _ => ⟨c, m.nextId, rfl, rfl⟩, ?_⟩
    intro c' hc' hne
    simp only [Option.some.injEq] at hc'
    rw [← hc']
    exact hci hne
  · rw [Start_error m pcap iface e he]
    exact stopCapture_inv m h

theorem applyCall_inv (m : Manager) (call : Call) (h : ManagerInv m) :
    ManagerInv (applyCall m call) := by
  cases call with
  | start pcap iface => exact Start_inv m pcap iface h
  | switchInterface pcap iface => exact Start_inv m pcap iface h
  | stop => exact stopCapture_inv m h
  | loopExit n =>
    simp only [applyCall, goroutineExit]
    split_ifs
    · exact ⟨fun hf => by simp at hf, h.2⟩
    · exact h

theorem runCalls_inv (calls : List Call) : ∀ m, ManagerInv m → ManagerInv (runCalls m calls) := by
  induction calls with
  | nil => intro m h; exact h
  | cons call rest ih => intro m h; exact ih _ (applyCall_inv m call h)

theorem applyCall_currentIface (m : Manager) (call : Call) :
    (applyCall m call).currentIface = lastStarted m.currentIface [call] := by
  cases call with
  | start pcap iface => simp [applyCall, lastStarted, Start_currentIface]
  | switchInterface pcap iface =>
    simp [applyCall, lastStarted, SwitchInterface, Start_currentIface]
  | stop =>
    simp only [applyCall, lastStarted, Stop]
    cases hr : m.captureRunning with
    | false => rw [stopCapture_idle m hr]
    | true => rw [stopCapture_running m hr]
  | loopExit n =>
    simp only [applyCall, lastStarted, goroutineExit]
    split_ifs <;> rfl

theorem runCalls_currentIface (calls : List Call) : ∀ m,
    (runCalls m calls).currentIface = lastStarted m.currentIface calls := by
  induction calls with
  | nil => intro m; rfl
  | cons call rest ih =>
    intro m
    rw [runCalls, ih, applyCall_currentIface]
    cases call <;> rfl

/-- What `GetCurrentInterface` returns in every state reached from a new
manager by calls of `Start`, `SwitchInterface` and `Stop`, with device opens
that succeed or fail, and by ends of session goroutines: the name given to the
most recent `Start` or `SwitchInterface` whose device opened, and the empty
string if there was none. While `captureRunning` is set a capture is recorded,
and it is on the interface `GetCurrentInterface` returns whenever that name is
not empty. -/
theorem GetCurrentInterface_lastStarted (storage : MemoryStorage) (calls : List Call) :
    GetCurrentInterface (runCalls (NewManager storage) calls) = lastStarted "" calls ∧
    ((runCalls (NewManager storage) calls).captureRunning = true →
      ∃ capture, (runCalls (NewManager storage) calls).currentCapture = some capture ∧
        (GetCurrentInterface (runCalls (NewManager storage) calls) ≠ "" →
          capture.iface = GetCurrentInterface (runCalls (NewManager storage) calls))) := by
  have hinv : ManagerInv (runCalls (NewManager storage) calls) :=
    runCalls_inv calls _ ⟨fun hf => by simp [NewManager] at hf, fun c hc => by simp [NewManager] at hc⟩
  refine ⟨runCalls_currentIface calls _, ?_⟩
  intro hr
  obtain ⟨capture, _, hc, _⟩ := hinv.1 hr
  exact ⟨capture, hc, hinv.2 capture hc⟩

/-- An instance of `GetCurrentInterface_lastStarted`: a start on `eth0`, a stop
and a start that fails, and a start on `eth0` alone. -/
theorem GetCurrentInterface_lastStarted_witness :
    GetCurrentInterface (runCalls (NewManager NewMemoryStorage)
      [.start pcapOk "eth0", .stop, .start pcapFail "wlan0"]) = "eth0" ∧
    ∃ capture, (runCalls (NewManager NewMemoryStorage) [.start pcapOk "eth0"]).currentCapture =
        some capture ∧
      (GetCurrentInterface (runCalls (NewManager NewMemoryStorage) [.start pcapOk "eth0"]) ≠ "" →
        capture.iface =
          GetCurrentInterface (runCalls (NewManager NewMemoryStorage) [.start pcapOk "eth0"])) :=
  ⟨(GetCurrentInterface_lastStarted NewMemoryStorage
      [.start pcapOk "eth0", .stop, .start pcapFail "wlan0"]).1.trans (by decide),
    (GetCurrentInterface_lastStarted NewMemoryStorage [.start pcapOk "eth0"]).2 (by decide)⟩

/-- C14 fails on the code, whose comment reads "GetCurrentInterface returns the
currently monitored interface": after a successful `Start("eth0")` and `Stop()`
the manager is idle, no interface is monitored and `GetCurrentInterface`
returns `eth0`; after a successful `Start("")` the session runs on the selected
device `eth0` and `GetCurrentInterface` returns the empty string. -/
theorem GetCurrentInterface_after_stop :
    (Start (NewManager NewMemoryStorage) pcapOk "eth0").1 = none ∧
    (runCalls (NewManager NewMemoryStorage) [.start pcapOk "eth0", .stop]).captureRunning = false ∧
    GetCurrentInterface (runCalls (NewManager NewMemoryStorage) [.start pcapOk "eth0", .stop])
      = "eth0" ∧
    (runCalls (NewManager NewMemoryStorage) [.start pcapOk ""]).captureRunning = true ∧
    (runCalls (NewManager NewMemoryStorage) [.start pcapOk ""]).currentCapture =
      some { handle := 0, iface := "eth0" } ∧
    GetCurrentInterface (runCalls (NewManager NewMemoryStorage) [.start pcapOk ""]) = "" := by
  decide

/-- A `Start` whose device does not open, from a reachable state: it returns
an error, clears `captureRunning` and records no new session; when
`captureRunning` was set, the recorded session has been cancelled and closed,
and when it was not set no session is touched. -/
theorem Start_open_failure (storage : MemoryStorage) (calls : List Call) (m : Manager)
    (pcap : Pcap) (iface : String) (hm : m = runCalls (NewManager storage) calls)
    (hfail : opens pcap iface = false) :
    (Start m pcap iface).1 ≠ none ∧
    SwitchInterface m pcap iface = Start m pcap iface ∧
    (Start m pcap iface).2.captureRunning = false ∧
    (Start m pcap iface).2.cancel = m.cancel ∧
    (Start m pcap iface).2.ctx = m.ctx ∧
    (Start m pcap iface).2.launched = m.launched ∧
    (Start m pcap iface).2.nextId = m.nextId ∧
    (m.captureRunning = true →
      (Start m pcap iface).2.currentCapture = none ∧
      ∃ capture n, m.currentCapture = some capture ∧ m.cancel = some n ∧
        n ∈ (Start m pcap iface).2.cancelled ∧ capture.handle ∈ (Start m pcap iface).2.closed) ∧
    (m.captureRunning = false →
      (Start m pcap iface).2.currentCapture = m.currentCapture ∧
      (Start m pcap iface).2.cancelled = m.cancelled ∧
      (Start m pcap iface).2.closed = m.closed) := by
  have hinv : ManagerInv m := by
    rw [hm]
    exact runCalls_inv calls _
      ⟨fun hf => by simp [NewManager] at hf, fun c hc => by simp [NewManager] at hc⟩
  rcases NewPacketCapture_cases pcap m.nextId iface with ⟨ho, _⟩ | ⟨_, e, he⟩
  · rw [hfail] at ho
    exact absurd ho (by simp)
  · refine ⟨by rw [Start_error m pcap iface e he]; simp, rfl, ?_⟩
    rw [Start_error m pcap iface e he]
    cases hr : m.captureRunning with
    | false =>
      rw [stopCapture_idle m hr]
      exact ⟨hr, rfl, rfl, rfl, rfl, fun hf => by simp at hf, fun _ => ⟨rfl, rfl, rfl⟩⟩
    | true =>
      obtain ⟨capture, n, hc, hn⟩ := hinv.1 hr
      rw [stopCapture_running m hr]
      refine ⟨rfl, rfl, rfl, rfl, rfl, fun _ => ⟨rfl, capture, n, hc, hn, ?_, ?_⟩,
        fun hf => by simp at hf⟩
      · simp [hn]
      · simp [hc]

/-- C15 fails on the code: after `Start("eth0")` and `SwitchInterface("wlan0")`
the goroutine of the first session ends and clears `captureRunning`, so the
manager holds a session on `wlan0` that runs with the flag cleared. A
`SwitchInterface` whose device does not open then returns an error without
stopping that session: its context is not cancelled and its handle is not
closed. -/
theorem failed_switch_leaves_session_running :
    (runCalls (NewManager NewMemoryStorage)
      [.start pcapOk "eth0", .switchInterface pcapOk "wlan0"]).captureRunning = true ∧
    (runCalls (NewManager NewMemoryStorage)
      [.start pcapOk "eth0", .switchInterface pcapOk "wlan0", .loopExit 0]).captureRunning
        = false ∧
    (runCalls (NewManager NewMemoryStorage)
      [.start pcapOk "eth0", .switchInterface pcapOk "wlan0", .loopExit 0]).currentCapture
        = some { handle := 1, iface := "wlan0" } ∧
    (SwitchInterface (runCalls (NewManager NewMemoryStorage)
      [.start pcapOk "eth0", .switchInterface pcapOk "wlan0", .loopExit 0]) pcapFail "wlan1").1
        = some "failed to create packet capture: failed to open device wlan1" ∧
    (SwitchInterface (runCalls (NewManager NewMemoryStorage)
      [.start pcapOk "eth0", .switchInterface pcapOk "wlan0", .loopExit 0]) pcapFail "wlan1").2.launched
        = [{ handle := 1, iface := "wlan0" }, { handle := 0, iface := "eth0" }] ∧
    (SwitchInterface (runCalls (NewManager NewMemoryStorage)
      [.start pcapOk "eth0", .switchInterface pcapOk "wlan0", .loopExit 0]) pcapFail "wlan1").2.cancelled
        = [0] ∧
    (SwitchInterface (runCalls (NewManager NewMemoryStorage)
      [.start pcapOk "eth0", .switchInterface pcapOk "wlan0", .loopExit 0]) pcapFail "wlan1").2.closed
        = [0] := by
  decide

/-! ## file.go: the names of the buckets -/

theorem checkFrom_spec (p : Nat → Bool) : ∀ (d s : Nat), checkFrom p d s = true →
    ∀ n, s ≤ n → n < s + 2 ^ d → p n = true := by
  intro d
  induction d with
  | zero =>
    intro s h n h1 h2
    have : n = s := by simp at h2; omega
    rw [this]; exact h
  | succ d ih =>
    intro s h n h1 h2
    simp only [checkFrom, Bool.and_eq_true] at h
    have hp : 2 ^ (d + 1) = 2 ^ d + 2 ^ d := by rw [pow_succ]; omega
    by_cases hn : n < s + 2 ^ d
    · exact ih s h.1 n h1 hn
    · exact ih (s + 2 ^ d) h.2 n (by omega) (by omega)

/-- Every year of a 400-year era passes the check of `yearOk`. -/
theorem yearOk_check : (checkFrom yearOk 8 0 && checkFrom yearOk 7 256 &&
    checkFrom yearOk 4 384) = true := by decide!

theorem yearOk_all (y : Nat) (hy : y < 400) : yearOk y = true := by
  have h := yearOk_check
  simp only [Bool.and_eq_true] at h
  by_cases h1 : y < 256
  · exact checkFrom_spec yearOk 8 0 h.1.1 y (Nat.zero_le _) (by norm_num; omega)
  · by_cases h2 : y < 384
    · exact checkFrom_spec yearOk 7 256 h.1.2 y (by omega) (by norm_num; omega)
    · exact checkFrom_spec yearOk 4 384 h.2 y (by omega) (by norm_num; omega)

theorem scaledDay_step (d : Nat) : scaledDay d ≤ scaledDay (d + 1) := by
  simp only [scaledDay]
  omega

theorem scaledDay_mono {a b : Nat} (h : a ≤ b) : scaledDay a ≤ scaledDay b := by
  induction h with
  | refl => exact le_refl _
  | step _ ih => exact le_trans ih (scaledDay_step _)

theorem okDoe_all (n : Nat) (hn : n < 146097) : okDoe n = true := by
  have hy : scaledDay n / 365 < 400 := by
    simp only [scaledDay]
    omega
  have hok := yearOk_all (scaledDay n / 365) hy
  simp only [yearOk, Bool.and_eq_true, Bool.or_eq_true, beq_iff_eq, Nat.blt_eq, Nat.ble_eq] at hok
  obtain ⟨hlo, hhi⟩ := hok
  have h1 : 365 * (scaledDay n / 365) ≤ scaledDay n := Nat.mul_div_le _ _
  have h2 : scaledDay n < 365 * (scaledDay n / 365 + 1) := by
    have := Nat.lt_mul_div_succ (scaledDay n) (by decide : 0 < 365)
    simpa [Nat.succ_eq_add_one] using this
  show okY n (scaledDay n / 365) = true
  generalize scaledDay n / 365 = y at *
  simp only [okY, Bool.and_eq_true, Nat.ble_eq]
  constructor
  · by_contra hc
    have hlt : n ≤ daysBefore y - 1 := by
      simp only [daysBefore] at *
      omega
    have := scaledDay_mono hlt
    rcases hlo with h0 | h0
    · subst h0
      simp [daysBefore] at hc
    · omega
  · by_contra hc
    rcases hhi with h9 | h9
    · subst h9
      omega
    · have hge : daysBefore (y + 1) ≤ n := by
        simp only [daysBefore] at *
        omega
      have := scaledDay_mono hge
      omega

theorem doy_range (doe : Int) (h0 : 0 ≤ doe) (h1 : doe ≤ 146096) :
    0 ≤ doe - (365 * ((doe - doe / 1460 + doe / 36524 - doe / 146096) / 365) +
        ((doe - doe / 1460 + doe / 36524 - doe / 146096) / 365) / 4 -
        ((doe - doe / 1460 + doe / 36524 - doe / 146096) / 365) / 100) ∧
    doe - (365 * ((doe - doe / 1460 + doe / 36524 - doe / 146096) / 365) +
        ((doe - doe / 1460 + doe / 36524 - doe / 146096) / 365) / 4 -
        ((doe - doe / 1460 + doe / 36524 - doe / 146096) / 365) / 100) ≤ 365 := by
  obtain ⟨n, rfl⟩ := Int.eq_ofNat_of_zero_le h0
  have hp := okDoe_all n (by omega)
  simp only [okDoe, okY, Bool.and_eq_true, Nat.ble_eq] at hp
  obtain ⟨hp1, hp2⟩ := hp
  generalize hX : n - n / 1460 + n / 36524 - n / 146096 = X at hp1 hp2
  have hXi : (X : Int) = (n : Int) - (n : Int) / 1460 + (n : Int) / 36524 -
      (n : Int) / 146096 := by omega
  rw [← hXi]
  generalize hY : X / 365 = Y at hp1 hp2
  have hYi : (Y : Int) = (X : Int) / 365 := by omega
  rw [← hYi]
  omega

theorem civil_spec (days : Int) :
    ∃ era yoe doy mp : Int, 0 ≤ yoe ∧ yoe ≤ 399 ∧ 0 ≤ doy ∧ doy ≤ 365 ∧
      mp = (5 * doy + 2) / 153 ∧
      days + 719468 = era * 146097 + doy + (365 * yoe + yoe / 4 - yoe / 100) ∧
      civilFromDays days =
        (if (if mp < 10 then mp + 3 else mp - 9) ≤ 2 then yoe + era * 400 + 1
          else yoe + era * 400,
         if mp < 10 then mp + 3 else mp - 9, doy - (153 * mp + 2) / 5 + 1) := by
  have hdoe : 0 ≤ days + 719468 - (days + 719468) / 146097 * 146097 ∧
      days + 719468 - (days + 719468) / 146097 * 146097 ≤ 146096 := by omega
  generalize hd : days + 719468 - (days + 719468) / 146097 * 146097 = doe at hdoe
  have hy : 0 ≤ (doe - doe / 1460 + doe / 36524 - doe / 146096) / 365 ∧
      (doe - doe / 1460 + doe / 36524 - doe / 146096) / 365 ≤ 399 := by omega
  have hr := doy_range doe hdoe.1 hdoe.2
  refine ⟨(days + 719468) / 146097, (doe - doe / 1460 + doe / 36524 - doe / 146096) / 365,
    _, _, hy.1, hy.2, hr.1, hr.2, rfl, ?_, ?_⟩
  · rw [← hd]; ring
  · simp only [civilFromDays, hd]

theorem civilFromDays_injective (a b : Int) (h : civilFromDays a = civilFromDays b) : a = b := by
  obtain ⟨e1, y1, d1, m1, hy1, hy1', hd1, hd1', hm1, ha, hca⟩ := civil_spec a
  obtain ⟨e2, y2, d2, m2, hy2, hy2', hd2, hd2', hm2, hb, hcb⟩ := civil_spec b
  rw [hca, hcb] at h
  simp only [Prod.mk.injEq] at h
  obtain ⟨h1, h2, h3⟩ := h
  have hmm : m1 = m2 := by
    split_ifs at h2 <;> omega
  subst hmm
  have hdd : d1 = d2 := by omega
  subst hdd
  have hyy : y1 + e1 * 400 = y2 + e2 * 400 := by
    split_ifs at h1 <;> omega
  have hee : e1 = e2 := by omega
  have hyy2 : y1 = y2 := by omega
  subst hee; subst hyy2
  omega

theorem civilFromDays_month_day (days : Int) :
    1 ≤ (civilFromDays days).2.1 ∧ (civilFromDays days).2.1 ≤ 12 ∧
    1 ≤ (civilFromDays days).2.2 ∧ (civilFromDays days).2.2 ≤ 31 := by
  obtain ⟨e1, y1, d1, m1, hy1, hy1', hd1, hd1', hm1, ha, hca⟩ := civil_spec days
  rw [hca]
  simp only
  split_ifs <;> omega

theorem digitsValue_zeros (k : Nat) (l : List Char) :
    digitsValue (List.replicate k '0' ++ l) = digitsValue l := by
  induction k with
  | zero => simp
  | succ k ih =>
    have : digitsValue ('0' :: (List.replicate k '0' ++ l)) =
        digitsValue (List.replicate k '0' ++ l) := by
      simp [digitsValue]
    rw [List.replicate_succ, List.cons_append, this, ih]

theorem padded_digits (k n : Nat) : ∀ c ∈ List.replicate k '0' ++ Nat.toDigits 10 n,
    48 ≤ c.toNat ∧ c.toNat ≤ 57 := by
  intro c hc
  rcases List.mem_append.1 hc with h | h
  · rw [List.eq_of_mem_replicate h]
    decide
  · exact toDigits_digits n c h

theorem appendInt_injective (x y : Int) (w : Nat) (h : appendInt x w = appendInt y w) :
    x = y := by
  have hd := congrArg String.data h
  have key : ∀ a b : Int,
      List.replicate (w - (Nat.toDigits 10 a.natAbs).length) '0' ++ Nat.toDigits 10 a.natAbs =
        List.replicate (w - (Nat.toDigits 10 b.natAbs).length) '0' ++ Nat.toDigits 10 b.natAbs →
      a.natAbs = b.natAbs := by
    intro a b hab
    have := congrArg digitsValue hab
    rwa [digitsValue_zeros, digitsValue_zeros, digitsValue_toDigits, digitsValue_toDigits] at this
  have nodash : ∀ a : Int, '-' ∉
      List.replicate (w - (Nat.toDigits 10 a.natAbs).length) '0' ++ Nat.toDigits 10 a.natAbs := by
    intro a hm
    have := padded_digits _ _ '-' hm
    have e : ('-' : Char).toNat = 45 := rfl
    omega
  simp only [appendInt] at hd
  by_cases hx : x < 0 <;> by_cases hy : y < 0
  · simp only [hx, hy, if_true, List.cons.injEq, true_and] at hd
    have := key x y hd
    omega
  · simp only [hx, hy, if_true, if_false] at hd
    exact absurd (hd ▸ List.mem_cons_self _ _) (nodash y)
  · simp only [hx, hy, if_true, if_false] at hd
    exact absurd (hd.symm ▸ List.mem_cons_self _ _) (nodash x)
  · simp only [hx, hy, if_false] at hd
    have := key x y hd
    omega

theorem appendInt_length_two : ∀ n : Nat, n < 100 → (appendInt (n : Int) 2).data.length = 2 := by
  decide

theorem appendInt_length_two_int (x : Int) (h0 : 0 ≤ x) (h1 : x < 100) :
    (appendInt x 2).data.length = 2 := by
  obtain ⟨n, rfl⟩ := Int.eq_ofNat_of_zero_le h0
  exact appendInt_length_two n (by omega)


theorem formatHour_injective (a b : Int) (h : formatHour a = formatHour b) : a = b := by
  have hmd1 := civilFromDays_month_day (a / 24)
  have hmd2 := civilFromDays_month_day (b / 24)
  have hd := congrArg String.data h
  simp only [formatHour, String.data_append] at hd
  have lH1 := appendInt_length_two_int (a % 24) (by omega) (by omega)
  have lH2 := appendInt_length_two_int (b % 24) (by omega) (by omega)
  have lD1 := appendInt_length_two_int (civilFromDays (a / 24)).2.2 (by omega) (by omega)
  have lD2 := appendInt_length_two_int (civilFromDays (b / 24)).2.2 (by omega) (by omega)
  have lM1 := appendInt_length_two_int (civilFromDays (a / 24)).2.1 (by omega) (by omega)
  have lM2 := appendInt_length_two_int (civilFromDays (b / 24)).2.1 (by omega) (by omega)
  obtain ⟨h1, hH⟩ := List.append_inj' hd (by rw [lH1, lH2])
  obtain ⟨h2, _⟩ := List.append_inj' h1 rfl
  obtain ⟨h3, hD⟩ := List.append_inj' h2 (by rw [lD1, lD2])
  obtain ⟨h4, _⟩ := List.append_inj' h3 rfl
  obtain ⟨h5, hM⟩ := List.append_inj' h4 (by rw [lM1, lM2])
  obtain ⟨hY, _⟩ := List.append_inj' h5 rfl
  have eH := appendInt_injective _ _ 2 (String.ext hH)
  have eD := appendInt_injective _ _ 2 (String.ext hD)
  have eM := appendInt_injective _ _ 2 (String.ext hM)
  have eY := appendInt_injective _ _ 4 (String.ext hY)
  have ec : civilFromDays (a / 24) = civilFromDays (b / 24) :=
    Prod.ext eY (Prod.ext eM eD)
  have := civilFromDays_injective _ _ ec
  omega

theorem fileName_injective (loc a b : Int) (h : fileName loc a = fileName loc b) :
    (a + loc) / Hour = (b + loc) / Hour := by
  have hd := congrArg String.data h
  simp only [fileName, String.data_append] at hd
  have h1 := List.append_cancel_right hd
  have h2 := List.append_cancel_left h1
  exact formatHour_injective _ _ (String.ext h2)

theorem loopTimes_nodup (fuel : Nat) : ∀ t e : Int, (loopTimes fuel t e).Nodup := by
  induction fuel with
  | zero => intro t e; simp [loopTimes]
  | succ n ih =>
    intro t e
    simp only [loopTimes]
    split_ifs
    · exact List.nodup_nil
    · refine List.nodup_cons.2 ⟨?_, ih _ _⟩
      intro hm
      obtain ⟨j, _, hj, _⟩ := (mem_loopTimes _ _ _ _).1 hm
      have hpos : 0 ≤ (j : Int) * Hour := mul_nonneg (Int.ofNat_nonneg j) (le_of_lt Hour_pos)
      have := Hour_pos
      omega

theorem examinedFiles_nodup (loc start end_ : Int) : (examinedFiles loc start end_).Nodup := by
  refine List.Nodup.map_on ?_ (loopTimes_nodup _ _ _)
  intro x hx y hy hxy
  have hx' := (mem_examinedTimes start end_ x).1 hx
  have hy' := (mem_examinedTimes start end_ y).1 hy
  have := fileName_injective loc x y hxy
  simp only [Hour_eq] at *
  omega

theorem snapshotPoints_eq (start end_ : Int) (l : List TrafficSnapshot) :
    snapshotPoints start end_ l =
      (l.filter (fun s => decide (start ≤ s.Timestamp ∧ s.Timestamp ≤ end_))).filterMap
        (fun s => s.Interface.map (fun iface =>
          ({ Timestamp := s.Timestamp
             InBytes := iface.InBytesPerSec
             OutBytes := iface.OutBytesPerSec
             InPackets := iface.InPacketsPerSec
             OutPackets := iface.OutPacketsPerSec } : HistoricalData))) := by
  induction l with
  | nil => rfl
  | cons s rest ih =>
    simp only [snapshotPoints]
    split_ifs with hout
    · have hn : ¬ (start ≤ s.Timestamp ∧ s.Timestamp ≤ end_) := by
        rintro ⟨h1, h2⟩
        rcases hout with h | h
        · exact absurd h1 (not_le.2 h)
        · exact absurd h2 (not_le.2 h)
      rw [ih, List.filter_cons_of_neg (by simpa using hn)]
    · have hin : start ≤ s.Timestamp ∧ s.Timestamp ≤ end_ :=
        ⟨not_lt.1 (fun h => hout (Or.inl h)), not_lt.1 (fun h => hout (Or.inr h))⟩
      rw [List.filter_cons_of_pos (by simpa using hin)]
      cases hi : s.Interface with
      | none => simp [hi, ih]
      | some iface => simp [hi, ih]

theorem readBuckets_eq (loc : Int) (dir : Dir) (start end_ : Int) (ts : List Int) :
    readBuckets loc dir start end_ ts =
      (ts.map (fileName loc)).flatMap (fun name =>
        match dir name with
        | some (.array l) => snapshotPoints start end_ l
        | _ => []) := by
  induction ts with
  | nil => rfl
  | cons t rest ih =>
    simp only [readBuckets, List.map_cons, List.flatMap_cons, ih]
    congr 1
    simp only [bucketPoints]
    cases dir (fileName loc t) with
    | none => rfl
    | some data => cases data <;> rfl

theorem readBucketsIn_eq (zone : Int → Int) (dir : Dir) (start end_ : Int) (ts : List Int) :
    readBucketsIn zone dir start end_ ts =
      ts.flatMap (fun t =>
        match dir (fileName (zone t) t) with
        | some (.array l) => snapshotPoints start end_ l
        | _ => []) := by
  induction ts with
  | nil => rfl
  | cons t rest ih =>
    simp only [readBucketsIn, List.flatMap_cons, ih]
    congr 1
    simp only [bucketPoints]
    cases dir (fileName (zone t) t) with
    | none => rfl
    | some data => cases data <;> rfl

theorem readBucketsIn_const (loc : Int) (dir : Dir) (start end_ : Int) (ts : List Int) :
    readBucketsIn (fun _ => loc) dir start end_ ts = readBuckets loc dir start end_ ts := by
  induction ts with
  | nil => rfl
  | cons t rest ih => simp only [readBucketsIn, readBuckets, ih]

/-- Under a fixed offset `GetHistoricalDataIn` is `GetHistoricalData`. -/
theorem GetHistoricalDataIn_const (loc : Int) (dir : Dir) (start end_ : Int) :
    GetHistoricalDataIn (fun _ => loc) dir start end_ = GetHistoricalData loc dir start end_ := by
  simp only [GetHistoricalDataIn, GetHistoricalData, readBucketsIn_const]

/-- C11 (amended): `GetHistoricalData` returns no error. Its result is, hour by
hour in the order examined, one data point for every snapshot of the bucket of
that hour, if it parses, whose timestamp lies in `[start, end]` and which has
an interface, with the timestamp and the four per-second counters of the
snapshot; snapshots out of range or without an interface, and buckets that are
missing or do not parse, give nothing. No hour is examined twice, and when the
offset of local time from UTC is the same at all examined hours no bucket file
is read twice, so that each such snapshot gives exactly one point. -/
theorem GetHistoricalDataIn_points (zone : Int → Int) (dir : Dir) (start end_ : Int) :
    GetHistoricalDataIn zone dir start end_ =
      .ok ((examinedTimes start end_).flatMap (fun t =>
        match dir (fileName (zone t) t) with
        | some (.array l) =>
          (l.filter (fun s => decide (start ≤ s.Timestamp ∧ s.Timestamp ≤ end_))).filterMap
            (fun s => s.Interface.map (fun iface =>
              ({ Timestamp := s.Timestamp
                 InBytes := iface.InBytesPerSec
                 OutBytes := iface.OutBytesPerSec
                 InPackets := iface.InPacketsPerSec
                 OutPackets := iface.OutPacketsPerSec } : HistoricalData)))
        | _ => [])) ∧
    (examinedTimes start end_).Nodup ∧
    (∀ loc, (∀ t ∈ examinedTimes start end_, zone t = loc) →
      ((examinedTimes start end_).map (fun t => fileName (zone t) t)).Nodup) := by
  refine ⟨?_, loopTimes_nodup _ _ _, ?_⟩
  · simp only [GetHistoricalDataIn, readBucketsIn_eq]
    congr 2
    funext t
    cases dir (fileName (zone t) t) with
    | none => rfl
    | some data =>
      cases data with
      | malformed decoded => rfl
      | array l => exact snapshotPoints_eq start end_ l
  · intro loc hloc
    have hmap : (examinedTimes start end_).map (fun t => fileName (zone t) t) =
        examinedFiles loc start end_ := by
      simp only [examinedFiles]
      exact List.map_congr_left (fun t ht => by rw [hloc t ht])
    rw [hmap]
    exact examinedFiles_nodup loc start end_

/-- Witness of C11: with local time equal to UTC, the two hours examined for
the range from 13:59:30 to 14:00:30 have two bucket files. -/
theorem GetHistoricalDataIn_points_witness :
    ((examinedTimes t135930 t140030).map (fun t => fileName 0 t)).Nodup :=
  (GetHistoricalDataIn_points (fun _ => 0) dirNoIface t135930 t140030).2.2 0 (fun _ _ => rfl)

/-- C11 as stated fails: the snapshot of `dirNoIface` lies in a bucket that is
read and parses, its timestamp is in the range, and the result holds no data
point for it, since it has no interface. Local time is UTC throughout. -/
theorem GetHistoricalData_nil_interface_counterexample :
    fileName 0 snapNoIface.Timestamp ∈ examinedFiles 0 t135930 t140030 ∧
    dirNoIface (fileName 0 snapNoIface.Timestamp) = some (.array [snapNoIface]) ∧
    t135930 ≤ snapNoIface.Timestamp ∧ snapNoIface.Timestamp ≤ t140030 ∧
    snapNoIface.Interface = none ∧
    (∃ pts, GetHistoricalData 0 dirNoIface t135930 t140030 = .ok pts ∧ pts = []) ∧
    ∃ pts, GetHistoricalDataIn (fun _ => 0) dirNoIface t135930 t140030 = .ok pts ∧ pts = [] := by
  refine ⟨by decide, by decide, by decide, by decide, rfl, ⟨_, rfl, by decide⟩, _, rfl,
    by decide⟩

/-- Across the end of daylight saving time two examined hours have one bucket
file: for the range from 05:10 to 05:50 UTC on 2024-11-03 in New York the hours
05:00 and 06:00 UTC are examined, both are 01:00 local time, the file is read
twice and its snapshot gives two points. -/
theorem GetHistoricalDataIn_fall_back :
    examinedTimes (1730610600 * Second) (1730613000 * Second) =
      [1730610000 * Second, 1730613600 * Second] ∧
    fileName (newYork (1730610000 * Second)) (1730610000 * Second)
      = "traffic_2024-11-03_01.json" ∧
    fileName (newYork (1730613600 * Second)) (1730613600 * Second)
      = "traffic_2024-11-03_01.json" ∧
    dirFallBack "traffic_2024-11-03_01.json" = some (.array [snapFallBack]) ∧
    ∃ pts, GetHistoricalDataIn newYork dirFallBack (1730610600 * Second) (1730613000 * Second)
        = .ok pts ∧
      pts =
        [{ Timestamp := snapFallBack.Timestamp, InBytes := 100, OutBytes := 200
           InPackets := 3, OutPackets := 4 },
         { Timestamp := snapFallBack.Timestamp, InBytes := 100, OutBytes := 200
           InPackets := 3, OutPackets := 4 }] := by
  refine ⟨by decide, by decide, by decide, by decide, _, rfl, by decide⟩

end NetworkMonitor
